import Mathlib

/-!
Verification of the CHIP-8 interpreter engines contained in
`CHIP8_Emulator(Plain(Working(Faster(Take4)))).py`.

The source file concatenates several drafts of the emulator.  Two of them are
complete engines and are embedded here:

* namespace `Working` — the final engine (class `Chip8` of the
  `CHIP8_Emulator_Working(without DSA)_Updated.py` section, lines 1530-2066):
  `cycle` with its PC-bounds guard, the handlers `_0E0`, `_00EE`, `_1nnn` …
  `_Fxxx` (spelled `op0E0`, `op00EE`, `op1nnn`, … here because Lean names
  cannot start with an underscore or a digit), `_timer_tick`, `_cpu_tick`
  and `load_rom`.

* namespace `Numpy` — the dispatch-table engine (class `Chip8` of the
  `CHIP8_Emulator(Tetris doesn't loop).py` section, lines 291-823): `tick`
  iterating over the mask/pattern `opcodes` table and the `op_*` handlers.

Modelling conventions, used consistently below:

* Python lists and bytearrays are `List Nat`; indexed reads `l[i]` are
  `nth l i` (the engines only read in bounds or behind explicit guards;
  unguarded reads that can raise `IndexError` are modelled with `Except`).
* `np.uint16 v` is `v % 65536`; Python `x & 0xFFF` on a possibly negative
  int is `x % 4096` on `Int` (Python bitwise AND with a low-bit mask is
  exactly the Euclidean remainder).
* The `Working` engine stores `self.pc` as a plain Python int that can go
  negative before masking (`_1nnn` writes `nnn - 2`), so its `pc` field is
  an `Int`; the fetch guard `self.pc < 0 or self.pc+1 >= len(self.memory)`
  is translated literally.
* The Python call stack uses `list.append` / `list.pop`, i.e. a LIFO at the
  right end; it is modelled with the most recently pushed address at the
  head of a Lean list.
* `random.randint(0, 255)` / `random.getrandbits(8)` are modelled by an
  oracle argument `rnd`, used as `rnd % 256`.
* Raised exceptions (`Stack overflow on CALL`, `Stack underflow on 00EE`,
  `PC out of bounds`, Python `IndexError`) are `Except` errors.
-/

/-- Python list read `l[i]` (with default 0; the engines read out of bounds
only where the model raises an explicit error first). -/
def nth (l : List Nat) (i : Nat) : Nat := l.getD i 0

theorem nth_nil (i : Nat) : nth [] i = 0 := by
  cases i <;> rfl

theorem nth_cons_zero (a : Nat) (l : List Nat) : nth (a :: l) 0 = a := rfl

theorem nth_cons_succ (a : Nat) (l : List Nat) (i : Nat) :
    nth (a :: l) (i + 1) = nth l i := rfl

theorem nth_set_eq (l : List Nat) (i v : Nat) (h : i < l.length) :
    nth (l.set i v) i = v := by
  induction l generalizing i with
  | nil => simp at h
  | cons a t ih =>
    cases i with
    | zero => rfl
    | succ j =>
      simp only [List.set, nth_cons_succ]
      exact ih j (by simpa using h)

theorem nth_set_ne (l : List Nat) (i j v : Nat) (h : i ≠ j) :
    nth (l.set i v) j = nth l j := by
  induction l generalizing i j with
  | nil => simp [List.set]
  | cons a t ih =>
    cases i with
    | zero =>
      cases j with
      | zero => exact absurd rfl h
      | succ k => rfl
    | succ i' =>
      cases j with
      | zero => rfl
      | succ k =>
        simp only [List.set, nth_cons_succ]
        exact ih i' k (fun hh => h (by omega))

theorem nth_lt_of_forall (l : List Nat) (i c : Nat) (hc : 0 < c)
    (h : ∀ v ∈ l, v < c) : nth l i < c := by
  induction l generalizing i with
  | nil => simpa [nth_nil] using hc
  | cons a t ih =>
    cases i with
    | zero => exact h a (by simp)
    | succ j => exact ih j (fun v hv => h v (by simp [hv]))

theorem nth_eq_zero_of_length_le (l : List Nat) (i : Nat) (h : l.length ≤ i) :
    nth l i = 0 := by
  induction l generalizing i with
  | nil => exact nth_nil i
  | cons a t ih =>
    cases i with
    | zero => simp at h
    | succ j =>
      rw [nth_cons_succ]
      exact ih j (by simpa using h)

deriving instance DecidableEq for Except

/-- `np.uint16 v`. -/
def u16 (v : Nat) : Nat := v % 65536

/-- The loop `for i, state in enumerate(keys): if state: … = i; break` used by
the `Fx0A` (wait-for-key) handlers of both engines: index of the first
pressed key, if any. -/
def findPressed : Nat → List Nat → Option Nat
  | _, [] => none
  | i, v :: rest => if v ≠ 0 then some i else findPressed (i + 1) rest

theorem findPressed_none (keys : List Nat) (i : Nat)
    (h : ∀ v ∈ keys, v = 0) : findPressed i keys = none := by
  induction keys generalizing i with
  | nil => rfl
  | cons a t ih =>
    have ha : a = 0 := h a (by simp)
    simp only [findPressed, ha]
    simpa using ih (i + 1) (fun v hv => h v (by simp [hv]))

theorem findPressed_set_one (keys : List Nat) (i j : Nat)
    (h : ∀ v ∈ keys, v = 0) (hj : j < keys.length) :
    findPressed i (keys.set j 1) = some (i + j) := by
  induction keys generalizing i j with
  | nil => simp at hj
  | cons a t ih =>
    cases j with
    | zero =>
      show findPressed i (1 :: t) = some (i + 0)
      simp [findPressed]
    | succ k =>
      have ha : a = 0 := h a (by simp)
      show findPressed i (a :: t.set k 1) = some (i + (k + 1))
      have hrec := ih (i + 1) k (fun v hv => h v (by simp [hv])) (by simpa using hj)
      simp only [findPressed, ha]
      rw [if_neg (by simp), hrec]
      congr 1
      omega

theorem findPressed_some_lt (keys : List Nat) (i j : Nat)
    (h : findPressed i keys = some j) : j < i + keys.length := by
  induction keys generalizing i with
  | nil => simp [findPressed] at h
  | cons a t ih =>
    rw [List.length_cons]
    by_cases ha : a ≠ 0
    · rw [findPressed, if_pos ha] at h
      have : i = j := by injection h
      omega
    · rw [findPressed, if_neg ha] at h
      have := ih (i + 1) h
      omega

namespace Working

/-- Fatal conditions of the final engine: the `PC out of bounds` guard in
`cycle`, the two stack exceptions raised by `_00EE` / `_2nnn`, and a Python
`IndexError` from an unguarded memory read in `_Dxyn`. -/
inductive WErr where
  | pcOutOfBounds
  | stackUnderflow
  | stackOverflow
  | indexError
  deriving DecidableEq

/-- CPU state of the final engine (`Chip8.__init__` of the Working draft):
`memory`, `gpio` (the 16 registers V0..VF), `index` (the I register), `pc`,
`stack`, the two timers, the 64×32 `display_buffer`, `key_inputs`, plus the
bookkeeping flags. -/
structure WState where
  memory : List Nat
  gpio : List Nat
  index : Nat
  pc : Int
  stack : List Int
  delay_timer : Nat
  sound_timer : Nat
  display_buffer : List Nat
  key_inputs : List Nat
  should_draw : Bool
  sound_playing : Bool
  has_exit : Bool
  deriving DecidableEq

/-- `_0E0` — CLS. -/
def op0E0 (s : WState) : WState :=
  { s with display_buffer := List.replicate (64 * 32) 0, should_draw := true }

/-- `_00EE` — RET; raises `Stack underflow on 00EE` when the stack is empty. -/
def op00EE (s : WState) : Except WErr WState :=
  match s.stack with
  | [] => .error .stackUnderflow
  | addr :: rest => .ok { s with pc := addr, stack := rest }

/-- `_0nnn` — SYS, ignored. -/
def op0nnn (s : WState) : WState := s

/-- `_1nnn` — JP: `self.pc = (self.opcode & 0x0FFF) - 2` (the cycle-end
`+2 & 0xFFF` restores the target). -/
def op1nnn (w : Nat) (s : WState) : WState :=
  { s with pc := ((w &&& 0x0FFF : Nat) : Int) - 2 }

/-- `_2nnn` — CALL; raises `Stack overflow on CALL` when the stack already
holds 16 return addresses, otherwise pushes the current `pc`. -/
def op2nnn (w : Nat) (s : WState) : Except WErr WState :=
  if 16 ≤ s.stack.length then .error .stackOverflow
  else .ok { s with stack := s.pc :: s.stack, pc := ((w &&& 0x0FFF : Nat) : Int) - 2 }

/-- `_3xkk` — SE Vx, kk. -/
def op3xkk (w : Nat) (s : WState) : WState :=
  let x := (w &&& 0x0F00) >>> 8
  let kk := w &&& 0xFF
  if nth s.gpio x = kk then { s with pc := (s.pc + 2) % 4096 } else s

/-- `_4xkk` — SNE Vx, kk. -/
def op4xkk (w : Nat) (s : WState) : WState :=
  let x := (w &&& 0x0F00) >>> 8
  let kk := w &&& 0xFF
  if nth s.gpio x ≠ kk then { s with pc := (s.pc + 2) % 4096 } else s

/-- `_5xy0` — SE Vx, Vy (returns early if the low nibble is nonzero). -/
def op5xy0 (w : Nat) (s : WState) : WState :=
  let x := (w &&& 0x0F00) >>> 8
  let y := (w &&& 0x00F0) >>> 4
  if w &&& 0xF ≠ 0 then s
  else if nth s.gpio x = nth s.gpio y then { s with pc := (s.pc + 2) % 4096 } else s

/-- `_6xkk` — LD Vx, kk. -/
def op6xkk (w : Nat) (s : WState) : WState :=
  let x := (w &&& 0x0F00) >>> 8
  { s with gpio := s.gpio.set x (w &&& 0xFF) }

/-- `_7xkk` — ADD Vx, kk (no flag change). -/
def op7xkk (w : Nat) (s : WState) : WState :=
  let x := (w &&& 0x0F00) >>> 8
  { s with gpio := s.gpio.set x ((nth s.gpio x + (w &&& 0xFF)) &&& 0xFF) }

/-- `_8xxx` — the 8xy? ALU family.  The Python handler executes its two
assignment statements in order, so each second statement reads the register
file after the VF write; the intermediate list `g1` reproduces that. -/
def op8xxx (w : Nat) (s : WState) : WState :=
  let x := (w &&& 0x0F00) >>> 8
  let y := (w &&& 0x00F0) >>> 4
  let sub := w &&& 0xF
  if sub = 0x0 then { s with gpio := s.gpio.set x (nth s.gpio y) }
  else if sub = 0x1 then { s with gpio := s.gpio.set x (nth s.gpio x ||| nth s.gpio y) }
  else if sub = 0x2 then { s with gpio := s.gpio.set x (nth s.gpio x &&& nth s.gpio y) }
  else if sub = 0x3 then { s with gpio := s.gpio.set x (nth s.gpio x ^^^ nth s.gpio y) }
  else if sub = 0x4 then
    let t := nth s.gpio x + nth s.gpio y
    let g1 := s.gpio.set 0xF (if 0xFF < t then 1 else 0)
    { s with gpio := g1.set x (t &&& 0xFF) }
  else if sub = 0x5 then
    let g1 := s.gpio.set 0xF (if nth s.gpio y < nth s.gpio x then 1 else 0)
    { s with gpio := g1.set x ((((nth g1 x : Int) - nth g1 y) % 256).toNat) }
  else if sub = 0x6 then
    let g1 := s.gpio.set 0xF (nth s.gpio x &&& 1)
    { s with gpio := g1.set x (nth g1 x >>> 1) }
  else if sub = 0x7 then
    let g1 := s.gpio.set 0xF (if nth s.gpio x < nth s.gpio y then 1 else 0)
    { s with gpio := g1.set x ((((nth g1 y : Int) - nth g1 x) % 256).toNat) }
  else if sub = 0xE then
    let g1 := s.gpio.set 0xF ((nth s.gpio x >>> 7) &&& 1)
    { s with gpio := g1.set x ((nth g1 x <<< 1) &&& 0xFF) }
  else s

/-- `_9xy0` — SNE Vx, Vy. -/
def op9xy0 (w : Nat) (s : WState) : WState :=
  let x := (w &&& 0x0F00) >>> 8
  let y := (w &&& 0x00F0) >>> 4
  if w &&& 0xF ≠ 0 then s
  else if nth s.gpio x ≠ nth s.gpio y then { s with pc := (s.pc + 2) % 4096 } else s

/-- `_Annn` — LD I, nnn. -/
def opAnnn (w : Nat) (s : WState) : WState :=
  { s with index := w &&& 0x0FFF }

/-- `_Bnnn` — JP V0, nnn: `((opcode & 0x0FFF) + V0 - 2) & 0xFFF`. -/
def opBnnn (w : Nat) (s : WState) : WState :=
  { s with pc := (((w &&& 0x0FFF : Nat) : Int) + (nth s.gpio 0 : Int) - 2) % 4096 }

/-- `_Cxkk` — RND: `random.getrandbits(8) & (opcode & 0xFF)`. -/
def opCxkk (rnd w : Nat) (s : WState) : WState :=
  let x := (w &&& 0x0F00) >>> 8
  { s with gpio := s.gpio.set x ((rnd % 256) &&& (w &&& 0xFF)) }

/-- One sprite row of `_Dxyn`: the eight unrolled `if sprite & mask` blocks,
each doing `collision |= buf[idx]; buf[idx] ^= 1` on
`idx = base + ((x + bitpos) & 0x3F)`. -/
def wkDrawRow (sprite xcoord base : Nat) (st : List Nat × Nat) : List Nat × Nat :=
  (List.range 8).foldl
    (fun st bit =>
      if sprite &&& (0x80 >>> bit) ≠ 0 then
        let idx := base + ((xcoord + bit) &&& 0x3F)
        (st.1.set idx (nth st.1 idx ^^^ 1), st.2 ||| nth st.1 idx)
      else st)
    st

/-- The row loop of `_Dxyn`: rows at `I + row ≥ 4096` are skipped
(`continue`), zero sprite bytes are skipped, and a read past the end of
`memory` (only possible when the memory is shorter than 4096 bytes) is a
Python `IndexError`. -/
def wkDrawRows (mem : List Nat) (I xcoord ycoord : Nat) :
    Nat → Nat → (List Nat × Nat) → Except WErr (List Nat × Nat)
  | _, 0, st => .ok st
  | row, cnt + 1, st =>
    if 4096 ≤ I + row then wkDrawRows mem I xcoord ycoord (row + 1) cnt st
    else if I + row < mem.length then
      let sprite := nth mem (I + row)
      if sprite = 0 then wkDrawRows mem I xcoord ycoord (row + 1) cnt st
      else
        wkDrawRows mem I xcoord ycoord (row + 1) cnt
          (wkDrawRow sprite xcoord (((ycoord + row) &&& 0x1F) * 64) st)
    else .error .indexError

/-- `_Dxyn` — DRW: draws `n` rows at `(Vx % 64, Vy % 32)` and puts the
collision bit in VF. -/
def opDxyn (w : Nat) (s : WState) : Except WErr WState :=
  let xcoord := nth s.gpio ((w >>> 8) &&& 0xF) % 64
  let ycoord := nth s.gpio ((w >>> 4) &&& 0xF) % 32
  let n := w &&& 0xF
  match wkDrawRows s.memory s.index xcoord ycoord 0 n (s.display_buffer, 0) with
  | .error e => .error e
  | .ok (buf, collision) =>
    .ok { s with display_buffer := buf,
                 gpio := s.gpio.set 0xF (if collision ≠ 0 then 1 else 0),
                 should_draw := true }

/-- `_Exxx` — SKP / SKNP (key index is masked to 4 bits and bounds-checked
against the key vector before indexing). -/
def opExxx (w : Nat) (s : WState) : WState :=
  let x := (w >>> 8) &&& 0xF
  let kk := w &&& 0xFF
  let key := nth s.gpio x &&& 0xF
  if kk = 0x9E then
    if key < s.key_inputs.length ∧ nth s.key_inputs key ≠ 0 then
      { s with pc := (s.pc + 2) % 4096 }
    else s
  else if kk = 0xA1 then
    if key < s.key_inputs.length ∧ ¬nth s.key_inputs key ≠ 0 then
      { s with pc := (s.pc + 2) % 4096 }
    else s
  else s

/-- The `for i in range(x+1): if index+i < 4096: memory[index+i] = gpio[i]`
loop of `_Fxxx`/`0x55`. -/
def wkStoreLoop (g : List Nat) (idx : Nat) : Nat → Nat → List Nat → List Nat
  | _, 0, mem => mem
  | i, cnt + 1, mem =>
    wkStoreLoop g idx (i + 1) cnt
      (if idx + i < 4096 then mem.set (idx + i) (nth g i) else mem)

/-- The `for i in range(x+1): if index+i < 4096: gpio[i] = memory[index+i]`
loop of `_Fxxx`/`0x65`. -/
def wkLoadLoop (mem : List Nat) (idx : Nat) : Nat → Nat → List Nat → List Nat
  | _, 0, g => g
  | i, cnt + 1, g =>
    wkLoadLoop mem idx (i + 1) cnt
      (if idx + i < 4096 then g.set i (nth mem (idx + i)) else g)

/-- `_Fxxx` — the Fx?? family: timers, wait-for-key, I arithmetic, font,
BCD (guarded by `index < 4094`), register store/load (each byte guarded by
`index + i < 4096`). -/
def opFxxx (w : Nat) (s : WState) : WState :=
  let x := (w >>> 8) &&& 0xF
  let kk := w &&& 0xFF
  if kk = 0x07 then { s with gpio := s.gpio.set x s.delay_timer }
  else if kk = 0x0A then
    match findPressed 0 s.key_inputs with
    | none => { s with pc := (s.pc - 2) % 4096 }
    | some i => { s with gpio := s.gpio.set x i }
  else if kk = 0x15 then { s with delay_timer := nth s.gpio x }
  else if kk = 0x18 then
    { s with sound_timer := nth s.gpio x,
             sound_playing :=
               if 0 < nth s.gpio x ∧ ¬s.sound_playing then true else s.sound_playing }
  else if kk = 0x1E then
    let newI := s.index + nth s.gpio x
    { s with gpio := s.gpio.set 0xF (if 0xFFF < newI then 1 else 0),
             index := newI &&& 0xFFFF }
  else if kk = 0x29 then { s with index := (nth s.gpio x &&& 0xF) * 5 }
  else if kk = 0x33 then
    let v := nth s.gpio x
    if s.index < 4094 then
      let m1 := s.memory.set s.index (v / 100)
      let m2 := m1.set (s.index + 1) (v / 10 % 10)
      { s with memory := m2.set (s.index + 2) (v % 10) }
    else s
  else if kk = 0x55 then { s with memory := wkStoreLoop s.gpio s.index 0 (x + 1) s.memory }
  else if kk = 0x65 then { s with gpio := wkLoadLoop s.memory s.index 0 (x + 1) s.gpio }
  else s

/-- The decode-and-dispatch of `cycle`: the `0x0???` special case followed by
the `funcmap` lookup on the high nibble.  Every value of `opcode & 0xF000`
falls in `0x0000 … 0xF000`, so the trailing `Unknown opcode` print of the
source is the unreachable final branch. -/
def execute (rnd w : Nat) (s : WState) : Except WErr WState :=
  let pfx := w &&& 0xF000
  if pfx = 0x0000 then
    if w = 0x00E0 then .ok (op0E0 s)
    else if w = 0x00EE then op00EE s
    else .ok (op0nnn s)
  else if pfx = 0x1000 then .ok (op1nnn w s)
  else if pfx = 0x2000 then op2nnn w s
  else if pfx = 0x3000 then .ok (op3xkk w s)
  else if pfx = 0x4000 then .ok (op4xkk w s)
  else if pfx = 0x5000 then .ok (op5xy0 w s)
  else if pfx = 0x6000 then .ok (op6xkk w s)
  else if pfx = 0x7000 then .ok (op7xkk w s)
  else if pfx = 0x8000 then .ok (op8xxx w s)
  else if pfx = 0x9000 then .ok (op9xy0 w s)
  else if pfx = 0xA000 then .ok (opAnnn w s)
  else if pfx = 0xB000 then .ok (opBnnn w s)
  else if pfx = 0xC000 then .ok (opCxkk rnd w s)
  else if pfx = 0xD000 then opDxyn w s
  else if pfx = 0xE000 then .ok (opExxx w s)
  else if pfx = 0xF000 then .ok (opFxxx w s)
  else .ok s

/-- The big-endian instruction fetch `(memory[pc] << 8) | memory[pc+1]`. -/
def fetchWord (s : WState) : Nat :=
  nth s.memory s.pc.toNat <<< 8 ||| nth s.memory (s.pc.toNat + 1)

/-- The tail of `cycle`: the default increment `pc = (pc+2) & 0xFFF` followed
by the in-cycle timer decrements. -/
def endOfCycle (s : WState) : WState :=
  let s1 : WState := { s with pc := (s.pc + 2) % 4096 }
  { s1 with
    delay_timer := if 0 < s1.delay_timer then s1.delay_timer - 1 else s1.delay_timer,
    sound_timer := if 0 < s1.sound_timer then s1.sound_timer - 1 else s1.sound_timer }

/-- `cycle` — one fetch-decode-execute step of the Working engine, including
the literal guard `if self.pc < 0 or self.pc+1 >= len(self.memory): raise
Exception("PC out of bounds")`. -/
def cycle (rnd : Nat) (s : WState) : Except WErr WState :=
  if s.pc < 0 ∨ (s.memory.length : Int) ≤ s.pc + 1 then .error .pcOutOfBounds
  else
    match execute rnd (fetchWord s) s with
    | .error e => .error e
    | .ok s1 => .ok (endOfCycle s1)

/-- `_timer_tick` — one 60 Hz timer step: decrement each positive timer, and
maintain the beep flag exactly as the source does. -/
def timer_tick (s : WState) : WState :=
  let s1 : WState :=
    { s with delay_timer := if 0 < s.delay_timer then s.delay_timer - 1 else s.delay_timer }
  if 0 < s1.sound_timer then
    { s1 with sound_timer := s1.sound_timer - 1,
              sound_playing := if ¬s1.sound_playing then true else s1.sound_playing }
  else { s1 with sound_playing := false }

/-- `_cpu_tick` — the externally driven `step()`: a no-op once `has_exit`
is set, otherwise one `cycle`; an exception from `cycle` sets `has_exit`
(the source also closes the window). -/
def cpu_tick (rnd : Nat) (s : WState) : WState :=
  if s.has_exit then s
  else
    match cycle rnd s with
    | .ok s1 => s1
    | .error _ => { s with has_exit := true }

/-- The copy loop of `load_rom`:
`for i, b in enumerate(data): if 0x200 + i < 4096: memory[0x200+i] = b`. -/
def copyRom : Nat → List Nat → List Nat → List Nat
  | _, [], mem => mem
  | i, b :: rest, mem =>
    copyRom (i + 1) rest (if 0x200 + i < 4096 then mem.set (0x200 + i) b else mem)

/-- `load_rom` — copies the ROM bytes into memory starting at 0x200. -/
def load_rom (data : List Nat) (s : WState) : WState :=
  { s with memory := copyRom 0 data s.memory }

/-- The driver-facing key update (spec name `set_key`); in the source the
input collaborator writes `self.key_inputs[keymap[symbol]] = 1` on key press
and `= 0` on release. -/
def set_key (k : Nat) (pressed : Bool) (s : WState) : WState :=
  { s with key_inputs := s.key_inputs.set k (if pressed then 1 else 0) }

end Working

/-- The 80-byte font table loaded at memory offset 0 during initialization. -/
def FONTSET : List Nat :=
  [0xF0, 0x90, 0x90, 0x90, 0xF0,
   0x20, 0x60, 0x20, 0x20, 0x70,
   0xF0, 0x10, 0xF0, 0x80, 0xF0,
   0xF0, 0x10, 0xF0, 0x10, 0xF0,
   0x90, 0x90, 0xF0, 0x10, 0x10,
   0xF0, 0x80, 0xF0, 0x10, 0xF0,
   0xF0, 0x80, 0xF0, 0x90, 0xF0,
   0xF0, 0x10, 0x20, 0x40, 0x40,
   0xF0, 0x90, 0xF0, 0x90, 0xF0,
   0xF0, 0x90, 0xF0, 0x10, 0xF0,
   0xF0, 0x90, 0xF0, 0x90, 0x90,
   0xE0, 0x90, 0xE0, 0x90, 0xE0,
   0xF0, 0x80, 0x80, 0x80, 0xF0,
   0xE0, 0x90, 0x90, 0x90, 0xE0,
   0xF0, 0x80, 0xF0, 0x80, 0xF0,
   0xF0, 0x80, 0xF0, 0x80, 0x80]

namespace Numpy

/-- Fault conditions of the dispatch-table engine: a Python `IndexError`
from an unguarded list/bytearray read (instruction fetch past the end of
memory, sprite read past the end of memory, key lookup `keys[V[x]]` with
`V[x] ≥ 16`, or a BCD write past the end of memory). -/
inductive NErr where
  | indexError
  deriving DecidableEq

/-- CPU state of the dispatch-table engine (`Chip8.__init__` of the
`Tetris doesn't loop` draft): `memory` (bytearray 4096), `vram`
(bytearray 64×32), the register list `V`, `I`, the `np.uint16` program
counter, the fixed 16-slot `stack` with stack pointer `sp`, the key vector,
the two timers and the bookkeeping flags. -/
structure NState where
  memory : List Nat
  vram : List Nat
  V : List Nat
  I : Nat
  pc : Nat
  stack : List Nat
  sp : Nat
  keys : List Nat
  delay : Nat
  sound : Nat
  sound_playing : Bool
  should_draw : Bool
  deriving DecidableEq

/-- `op_CLS` — `vram[:] = b'\x00' * len(vram)`. -/
def op_CLS (_rnd _w : Nat) (s : NState) : Except NErr NState :=
  .ok { s with vram := List.replicate s.vram.length 0, should_draw := true }

/-- `op_RET` — with an empty stack (`sp == 0`) the handler silently resets
`pc` to 0x200; otherwise it pops `stack[sp-1]`. -/
def op_RET (_rnd _w : Nat) (s : NState) : Except NErr NState :=
  if s.sp = 0 then .ok { s with pc := u16 0x200 }
  else .ok { s with sp := s.sp - 1, pc := nth s.stack (s.sp - 1) }

/-- `op_JP`. -/
def op_JP (_rnd w : Nat) (s : NState) : Except NErr NState :=
  .ok { s with pc := u16 (w &&& 0x0FFF) }

/-- `op_CALL` — pushes the return address only while `sp < 16` (a 17th
nested call silently loses its return address); the jump happens
unconditionally. -/
def op_CALL (_rnd w : Nat) (s : NState) : Except NErr NState :=
  let s1 := if s.sp < 16 then { s with stack := s.stack.set s.sp s.pc, sp := s.sp + 1 } else s
  .ok { s1 with pc := u16 (w &&& 0x0FFF) }

/-- `op_SE_Vx_kk`. -/
def op_SE_Vx_kk (_rnd w : Nat) (s : NState) : Except NErr NState :=
  let x := (w >>> 8) &&& 0xF
  let kk := w &&& 0xFF
  .ok (if nth s.V x = kk then { s with pc := u16 (s.pc + 2) } else s)

/-- `op_SNE_Vx_kk`. -/
def op_SNE_Vx_kk (_rnd w : Nat) (s : NState) : Except NErr NState :=
  let x := (w >>> 8) &&& 0xF
  let kk := w &&& 0xFF
  .ok (if nth s.V x ≠ kk then { s with pc := u16 (s.pc + 2) } else s)

/-- `op_SE_Vx_Vy`. -/
def op_SE_Vx_Vy (_rnd w : Nat) (s : NState) : Except NErr NState :=
  let x := (w >>> 8) &&& 0xF
  let y := (w >>> 4) &&& 0xF
  .ok (if nth s.V x = nth s.V y then { s with pc := u16 (s.pc + 2) } else s)

/-- `op_LD_Vx_kk`. -/
def op_LD_Vx_kk (_rnd w : Nat) (s : NState) : Except NErr NState :=
  let x := (w >>> 8) &&& 0xF
  .ok { s with V := s.V.set x (w &&& 0xFF) }

/-- `op_ADD_Vx_kk` — `V[x] = (V[x] + kk) & 0xFF`, no flag change. -/
def op_ADD_Vx_kk (_rnd w : Nat) (s : NState) : Except NErr NState :=
  let x := (w >>> 8) &&& 0xF
  let kk := w &&& 0xFF
  .ok { s with V := s.V.set x ((nth s.V x + kk) &&& 0xFF) }

/-- `op_LD_Vx_Vy`. -/
def op_LD_Vx_Vy (_rnd w : Nat) (s : NState) : Except NErr NState :=
  let x := (w >>> 8) &&& 0xF
  let y := (w >>> 4) &&& 0xF
  .ok { s with V := s.V.set x (nth s.V y) }

/-- `op_OR`. -/
def op_OR (_rnd w : Nat) (s : NState) : Except NErr NState :=
  let x := (w >>> 8) &&& 0xF
  let y := (w >>> 4) &&& 0xF
  .ok { s with V := s.V.set x (nth s.V x ||| nth s.V y) }

/-- `op_AND`. -/
def op_AND (_rnd w : Nat) (s : NState) : Except NErr NState :=
  let x := (w >>> 8) &&& 0xF
  let y := (w >>> 4) &&& 0xF
  .ok { s with V := s.V.set x (nth s.V x &&& nth s.V y) }

/-- `op_XOR`. -/
def op_XOR (_rnd w : Nat) (s : NState) : Except NErr NState :=
  let x := (w >>> 8) &&& 0xF
  let y := (w >>> 4) &&& 0xF
  .ok { s with V := s.V.set x (nth s.V x ^^^ nth s.V y) }

/-- `op_ADD` — 8xy4, with the carry flag written before the sum. -/
def op_ADD (_rnd w : Nat) (s : NState) : Except NErr NState :=
  let x := (w >>> 8) &&& 0xF
  let y := (w >>> 4) &&& 0xF
  let t := nth s.V x + nth s.V y
  let g1 := s.V.set 0xF (if 0xFF < t then 1 else 0)
  .ok { s with V := g1.set x (t &&& 0xFF) }

/-- `op_SUB` — 8xy5; the second Python statement reads the register file
after the VF write (visible when `x = 0xF`), hence the intermediate `g1`. -/
def op_SUB (_rnd w : Nat) (s : NState) : Except NErr NState :=
  let x := (w >>> 8) &&& 0xF
  let y := (w >>> 4) &&& 0xF
  let g1 := s.V.set 0xF (if nth s.V y < nth s.V x then 1 else 0)
  .ok { s with V := g1.set x ((((nth g1 x : Int) - nth g1 y) % 256).toNat) }

/-- `op_SHR` — 8xy6. -/
def op_SHR (_rnd w : Nat) (s : NState) : Except NErr NState :=
  let x := (w >>> 8) &&& 0xF
  let g1 := s.V.set 0xF (nth s.V x &&& 1)
  .ok { s with V := g1.set x (nth g1 x >>> 1) }

/-- `op_SUBN` — 8xy7. -/
def op_SUBN (_rnd w : Nat) (s : NState) : Except NErr NState :=
  let x := (w >>> 8) &&& 0xF
  let y := (w >>> 4) &&& 0xF
  let g1 := s.V.set 0xF (if nth s.V x < nth s.V y then 1 else 0)
  .ok { s with V := g1.set x ((((nth g1 y : Int) - nth g1 x) % 256).toNat) }

/-- `op_SHL` — 8xyE. -/
def op_SHL (_rnd w : Nat) (s : NState) : Except NErr NState :=
  let x := (w >>> 8) &&& 0xF
  let g1 := s.V.set 0xF ((nth s.V x >>> 7) &&& 1)
  .ok { s with V := g1.set x ((nth g1 x <<< 1) &&& 0xFF) }

/-- `op_SNE_Vx_Vy`. -/
def op_SNE_Vx_Vy (_rnd w : Nat) (s : NState) : Except NErr NState :=
  let x := (w >>> 8) &&& 0xF
  let y := (w >>> 4) &&& 0xF
  .ok (if nth s.V x ≠ nth s.V y then { s with pc := u16 (s.pc + 2) } else s)

/-- `op_LD_I`. -/
def op_LD_I (_rnd w : Nat) (s : NState) : Except NErr NState :=
  .ok { s with I := u16 (w &&& 0x0FFF) }

/-- The inner `for bit in range(8)` loop of `op_DRW`: for every set sprite
bit, the collision test `if vram[index] == 1: V[0xF] = 1` reads the cell
before the XOR toggles it. -/
def npDrawRow (sprite px py row : Nat) (st : List Nat × Nat) : List Nat × Nat :=
  (List.range 8).foldl
    (fun st bit =>
      if sprite &&& (0x80 >>> bit) ≠ 0 then
        let vx := (px + bit) % 64
        let vy := (py + row) % 32
        let idx := vx + vy * 64
        (st.1.set idx (nth st.1 idx ^^^ 1), if nth st.1 idx = 1 then 1 else st.2)
      else st)
    st

/-- The outer `for row in range(n)` loop of `op_DRW`; the sprite read
`memory[I + row]` is unguarded and raises `IndexError` past the end of
memory. -/
def npDrawRows (mem : List Nat) (I px py : Nat) :
    Nat → Nat → (List Nat × Nat) → Except NErr (List Nat × Nat)
  | _, 0, st => .ok st
  | row, cnt + 1, st =>
    if I + row < mem.length then
      npDrawRows mem I px py (row + 1) cnt (npDrawRow (nth mem (I + row)) px py row st)
    else .error .indexError

/-- `op_DRW` — Dxyn.  The handler clears VF first and sets it to 1 on
collision during the loop; the net register-file effect is a single write
of the final collision value to VF. -/
def op_DRW (_rnd w : Nat) (s : NState) : Except NErr NState :=
  let x := (w >>> 8) &&& 0xF
  let y := (w >>> 4) &&& 0xF
  let n := w &&& 0xF
  let px := nth s.V x
  let py := nth s.V y
  match npDrawRows s.memory s.I px py 0 n (s.vram, 0) with
  | .error e => .error e
  | .ok (buf, vf) =>
    .ok { s with vram := buf, V := s.V.set 0xF vf, should_draw := true }

/-- `op_SKP` — `if keys[V[x]]: pc += 2`; the key lookup is unguarded, so
`V[x] ≥ len(keys)` is an `IndexError`. -/
def op_SKP (_rnd w : Nat) (s : NState) : Except NErr NState :=
  let x := (w >>> 8) &&& 0xF
  if nth s.V x < s.keys.length then
    .ok (if nth s.keys (nth s.V x) ≠ 0 then { s with pc := u16 (s.pc + 2) } else s)
  else .error .indexError

/-- `op_SKNP`. -/
def op_SKNP (_rnd w : Nat) (s : NState) : Except NErr NState :=
  let x := (w >>> 8) &&& 0xF
  if nth s.V x < s.keys.length then
    .ok (if ¬nth s.keys (nth s.V x) ≠ 0 then { s with pc := u16 (s.pc + 2) } else s)
  else .error .indexError

/-- `op_LD_Vx_DT`. -/
def op_LD_Vx_DT (_rnd w : Nat) (s : NState) : Except NErr NState :=
  let x := (w >>> 8) &&& 0xF
  .ok { s with V := s.V.set x s.delay }

/-- `op_WAITKEY` — Fx0A: scan `keys[0..15]` for the first pressed key; if
none, rewind `pc` by two (`np.uint16(pc - 2)` wraps modulo 65536) so the
instruction is re-decoded next cycle. -/
def op_WAITKEY (_rnd w : Nat) (s : NState) : Except NErr NState :=
  let x := (w >>> 8) &&& 0xF
  match findPressed 0 s.keys with
  | some i => .ok { s with V := s.V.set x i }
  | none => .ok { s with pc := (s.pc + 65536 - 2) % 65536 }

/-- `op_LD_DT_Vx`. -/
def op_LD_DT_Vx (_rnd w : Nat) (s : NState) : Except NErr NState :=
  let x := (w >>> 8) &&& 0xF
  .ok { s with delay := nth s.V x }

/-- `op_LD_ST_Vx`. -/
def op_LD_ST_Vx (_rnd w : Nat) (s : NState) : Except NErr NState :=
  let x := (w >>> 8) &&& 0xF
  .ok { s with sound := nth s.V x }

/-- `op_ADD_I_Vx` — `I = (I + V[x]) & 0xFFF`. -/
def op_ADD_I_Vx (_rnd w : Nat) (s : NState) : Except NErr NState :=
  let x := (w >>> 8) &&& 0xF
  .ok { s with I := (s.I + nth s.V x) &&& 0xFFF }

/-- `op_FONT` — `I = V[x] * 5`. -/
def op_FONT (_rnd w : Nat) (s : NState) : Except NErr NState :=
  let x := (w >>> 8) &&& 0xF
  .ok { s with I := nth s.V x * 5 }

/-- `op_BCD` — three unguarded byte writes at `I`, `I+1`, `I+2`
(`IndexError` past the end of memory). -/
def op_BCD (_rnd w : Nat) (s : NState) : Except NErr NState :=
  let x := (w >>> 8) &&& 0xF
  let v := nth s.V x
  if s.I + 2 < s.memory.length then
    let m1 := s.memory.set s.I (v / 100)
    let m2 := m1.set (s.I + 1) (v / 10 % 10)
    .ok { s with memory := m2.set (s.I + 2) (v % 10) }
  else .error .indexError

/-- `op_STORE` — the bytearray slice assignment
`memory[I:I+x+1] = V[:x+1]`, which replaces the addressed slice and may
resize the bytearray when the slice runs past its end. -/
def op_STORE (_rnd w : Nat) (s : NState) : Except NErr NState :=
  let x := (w >>> 8) &&& 0xF
  .ok { s with memory := s.memory.take s.I ++ s.V.take (x + 1) ++ s.memory.drop (s.I + x + 1) }

/-- `op_LOAD` — the list slice assignment `V[:x+1] = memory[I:I+x+1]`,
which replaces the first `x+1` registers by however many bytes the memory
slice yields (shrinking `V` when the slice is short). -/
def op_LOAD (_rnd w : Nat) (s : NState) : Except NErr NState :=
  let x := (w >>> 8) &&& 0xF
  .ok { s with V := (s.memory.drop s.I).take (x + 1) ++ s.V.drop (x + 1) }

/-- `op_RND` — `V[x] = random.randint(0, 255) & kk` with the random byte
supplied by the `rnd` oracle. -/
def op_RND (rnd w : Nat) (s : NState) : Except NErr NState :=
  let x := (w >>> 8) &&& 0xF
  let kk := w &&& 0xFF
  .ok { s with V := s.V.set x ((rnd % 256) &&& kk) }

/-- The `self.opcodes` dispatch table, in source order: `(mask, pattern,
handler)` triples scanned linearly by `tick`. -/
def opcodes : List (Nat × Nat × (Nat → Nat → NState → Except NErr NState)) :=
  [(0xFFFF, 0x00E0, op_CLS),
   (0xFFFF, 0x00EE, op_RET),
   (0xF000, 0x1000, op_JP),
   (0xF000, 0x2000, op_CALL),
   (0xF000, 0x3000, op_SE_Vx_kk),
   (0xF000, 0x4000, op_SNE_Vx_kk),
   (0xF00F, 0x5000, op_SE_Vx_Vy),
   (0xF000, 0x6000, op_LD_Vx_kk),
   (0xF000, 0x7000, op_ADD_Vx_kk),
   (0xF00F, 0x8000, op_LD_Vx_Vy),
   (0xF00F, 0x8001, op_OR),
   (0xF00F, 0x8002, op_AND),
   (0xF00F, 0x8003, op_XOR),
   (0xF00F, 0x8004, op_ADD),
   (0xF00F, 0x8005, op_SUB),
   (0xF00F, 0x8006, op_SHR),
   (0xF00F, 0x8007, op_SUBN),
   (0xF00F, 0x800E, op_SHL),
   (0xF00F, 0x9000, op_SNE_Vx_Vy),
   (0xF000, 0xA000, op_LD_I),
   (0xF000, 0xD000, op_DRW),
   (0xF0FF, 0xE09E, op_SKP),
   (0xF0FF, 0xE0A1, op_SKNP),
   (0xF0FF, 0xF007, op_LD_Vx_DT),
   (0xF0FF, 0xF00A, op_WAITKEY),
   (0xF0FF, 0xF015, op_LD_DT_Vx),
   (0xF0FF, 0xF018, op_LD_ST_Vx),
   (0xF0FF, 0xF01E, op_ADD_I_Vx),
   (0xF0FF, 0xF029, op_FONT),
   (0xF0FF, 0xF033, op_BCD),
   (0xF0FF, 0xF055, op_STORE),
   (0xF0FF, 0xF065, op_LOAD),
   (0xF000, 0xC000, op_RND)]

/-- `tick` — one CPU cycle of the dispatch-table engine: big-endian fetch
(unguarded, so a fetch past the end of memory is an `IndexError`), the
`np.uint16` increment of `pc`, then the linear scan of `opcodes`; when no
`(mask, pattern)` matches, the cycle is skipped and the returned flag
records the `Unknown opcode` print. -/
def tick (rnd : Nat) (s : NState) : Except NErr (NState × Bool) :=
  if s.pc + 1 < s.memory.length then
    let w := nth s.memory s.pc <<< 8 ||| nth s.memory (s.pc + 1)
    let s1 := { s with pc := u16 (s.pc + 2) }
    match opcodes.find? (fun e => w &&& e.1 == e.2.1) with
    | some e => (e.2.2 rnd w s1).map (fun s2 => (s2, false))
    | none => .ok (s1, true)
  else .error .indexError

/-- `_timer_tick` — the scheduled 60 Hz timer step of the dispatch-table
engine: decrement each positive timer, maintain the beep flag. -/
def timer_tick (s : NState) : NState :=
  let s1 : NState := { s with delay := if 0 < s.delay then s.delay - 1 else s.delay }
  if 0 < s1.sound then
    { s1 with sound := s1.sound - 1,
              sound_playing := if ¬s1.sound_playing then true else s1.sound_playing }
  else { s1 with sound_playing := false }

/-- The driver-facing key update (spec name `set_key`): the keyboard
callbacks write `keys[keymap[symbol]] = 1` on press and `= 0` on release. -/
def set_key (k : Nat) (pressed : Bool) (s : NState) : NState :=
  { s with keys := s.keys.set k (if pressed then 1 else 0) }

/-- The Python slice assignment `tgt[i:i+len(xs)] = xs`. -/
def splice (i : Nat) (xs tgt : List Nat) : List Nat :=
  tgt.take i ++ xs ++ tgt.drop (i + xs.length)

/-- The machine state after `Chip8.__init__` with ROM bytes `rom`:
4096 zeroed bytes with the font table spliced at 0 and the ROM spliced at
0x200, `pc = 0x200`, everything else cleared (the source starts with
`sound_playing = True` and `should_draw = True`). -/
def initState (rom : List Nat) : NState where
  memory := splice 0x200 rom (splice 0 FONTSET (List.replicate 4096 0))
  vram := List.replicate (64 * 32) 0
  V := List.replicate 16 0
  I := 0
  pc := 0x200
  stack := List.replicate 16 0
  sp := 0
  keys := List.replicate 16 0
  delay := 0
  sound := 0
  sound_playing := true
  should_draw := true

end Numpy

/-! General bit-level helper lemmas used to decode opcode fields. -/

theorem mask_of_mask (w m1 m2 p q : Nat) (h : w &&& m1 = p) (hm : m1 &&& m2 = m2)
    (hp : p &&& m2 = q) : w &&& m2 = q := by
  rw [← hp, ← h, Nat.and_assoc, hm]

theorem nnn_lt (w : Nat) : w &&& 0x0FFF < 4096 :=
  lt_of_le_of_lt Nat.and_le_right (by norm_num)

theorem kk_lt (w : Nat) : w &&& 0xFF < 256 :=
  lt_of_le_of_lt Nat.and_le_right (by norm_num)

theorem xhi_lt (w : Nat) : (w &&& 0x0F00) >>> 8 < 16 := by
  have h : w &&& 0x0F00 ≤ 0x0F00 := Nat.and_le_right
  have h2 : (w &&& 0x0F00) >>> 8 = (w &&& 0x0F00) / 256 := by
    rw [Nat.shiftRight_eq_div_pow]
  rw [h2]
  omega

theorem xlo_lt (w : Nat) : (w >>> 8) &&& 0xF < 16 :=
  lt_of_le_of_lt Nat.and_le_right (by norm_num)

theorem and_255_eq_mod (x : Nat) : x &&& 0xFF = x % 256 := by
  have h := Nat.and_pow_two_sub_one_eq_mod x 8
  norm_num at h
  exact h

namespace Working

/-- Positive form of the `cycle` fetch guard. -/
def fetchOk (s : WState) : Prop :=
  0 ≤ s.pc ∧ s.pc + 1 < (s.memory.length : Int)

instance (s : WState) : Decidable (fetchOk s) :=
  inferInstanceAs (Decidable (0 ≤ s.pc ∧ s.pc + 1 < (s.memory.length : Int)))

theorem endOfCycle_pc (s : WState) : (endOfCycle s).pc = (s.pc + 2) % 4096 := rfl

theorem endOfCycle_stack (s : WState) : (endOfCycle s).stack = s.stack := rfl

theorem endOfCycle_gpio (s : WState) : (endOfCycle s).gpio = s.gpio := rfl

theorem endOfCycle_delay (s : WState) :
    (endOfCycle s).delay_timer = if 0 < s.delay_timer then s.delay_timer - 1 else s.delay_timer := rfl

theorem endOfCycle_sound (s : WState) :
    (endOfCycle s).sound_timer = if 0 < s.sound_timer then s.sound_timer - 1 else s.sound_timer := rfl

/-- With the guard satisfied, `cycle` is dispatch followed by the default
increment and in-cycle timer decrements. -/
theorem cycle_eq (rnd : Nat) (s : WState) (h : fetchOk s) :
    cycle rnd s =
      match execute rnd (fetchWord s) s with
      | .error e => .error e
      | .ok s1 => .ok (endOfCycle s1) := by
  obtain ⟨h1, h2⟩ := h
  unfold cycle
  rw [if_neg (by push_neg; exact ⟨h1, h2⟩)]

/-! Dispatch lemmas: `execute` reduced to a single handler under a mask
hypothesis on the opcode word. -/

theorem execute_jp (rnd w : Nat) (s : WState) (hw : w &&& 0xF000 = 0x1000) :
    execute rnd w s = .ok (op1nnn w s) := by
  simp only [execute, hw]
  norm_num

theorem execute_call (rnd w : Nat) (s : WState) (hw : w &&& 0xF000 = 0x2000) :
    execute rnd w s = op2nnn w s := by
  simp only [execute, hw]
  norm_num

theorem execute_ret (rnd : Nat) (s : WState) :
    execute rnd 0x00EE s = op00EE s := by
  simp only [execute]
  rw [show ((0x00EE : Nat) &&& 0xF000) = 0 from by decide]
  norm_num

theorem execute_add7 (rnd w : Nat) (s : WState) (hw : w &&& 0xF000 = 0x7000) :
    execute rnd w s = .ok (op7xkk w s) := by
  simp only [execute, hw]
  norm_num

theorem execute_ld6 (rnd w : Nat) (s : WState) (hw : w &&& 0xF000 = 0x6000) :
    execute rnd w s = .ok (op6xkk w s) := by
  simp only [execute, hw]
  norm_num

theorem execute_fxxx (rnd w : Nat) (s : WState) (hw : w &&& 0xF000 = 0xF000) :
    execute rnd w s = .ok (opFxxx w s) := by
  simp only [execute, hw]
  norm_num

theorem opFxxx_waitkey (w : Nat) (s : WState) (hkk : w &&& 0xFF = 0x0A) :
    opFxxx w s =
      match findPressed 0 s.key_inputs with
      | none => { s with pc := (s.pc - 2) % 4096 }
      | some i => { s with gpio := s.gpio.set ((w >>> 8) &&& 0xF) i } := by
  simp only [opFxxx, hkk]
  norm_num

/-! Handler-level `cycle` lemmas. -/

theorem cycle_jp (rnd : Nat) (s : WState) (hf : fetchOk s)
    (hw : fetchWord s &&& 0xF000 = 0x1000) :
    cycle rnd s = .ok (endOfCycle (op1nnn (fetchWord s) s)) := by
  rw [cycle_eq rnd s hf, execute_jp rnd (fetchWord s) s hw]

theorem cycle_call_ok (rnd : Nat) (s : WState) (hf : fetchOk s)
    (hw : fetchWord s &&& 0xF000 = 0x2000) (hlen : s.stack.length < 16) :
    cycle rnd s =
      .ok (endOfCycle { s with stack := s.pc :: s.stack,
                               pc := ((fetchWord s &&& 0x0FFF : Nat) : Int) - 2 }) := by
  rw [cycle_eq rnd s hf, execute_call rnd (fetchWord s) s hw]
  simp only [op2nnn]
  rw [if_neg (by omega)]

theorem cycle_call_overflow (rnd : Nat) (s : WState) (hf : fetchOk s)
    (hw : fetchWord s &&& 0xF000 = 0x2000) (hlen : 16 ≤ s.stack.length) :
    cycle rnd s = .error .stackOverflow := by
  rw [cycle_eq rnd s hf, execute_call rnd (fetchWord s) s hw]
  simp only [op2nnn]
  rw [if_pos hlen]

theorem cycle_ret_ok (rnd : Nat) (s : WState) (a : Int) (rest : List Int) (hf : fetchOk s)
    (hw : fetchWord s = 0x00EE) (hst : s.stack = a :: rest) :
    cycle rnd s = .ok (endOfCycle { s with pc := a, stack := rest }) := by
  rw [cycle_eq rnd s hf, hw, execute_ret rnd s]
  simp only [op00EE, hst]

theorem cycle_ret_underflow (rnd : Nat) (s : WState) (hf : fetchOk s)
    (hw : fetchWord s = 0x00EE) (hst : s.stack = []) :
    cycle rnd s = .error .stackUnderflow := by
  rw [cycle_eq rnd s hf, hw, execute_ret rnd s]
  simp only [op00EE, hst]

theorem cycle_add7 (rnd : Nat) (s : WState) (hf : fetchOk s)
    (hw : fetchWord s &&& 0xF000 = 0x7000) :
    cycle rnd s = .ok (endOfCycle (op7xkk (fetchWord s) s)) := by
  rw [cycle_eq rnd s hf, execute_add7 rnd (fetchWord s) s hw]

theorem cycle_ok_pc (rnd : Nat) (s s1 : WState) (h : cycle rnd s = .ok s1) :
    0 ≤ s1.pc ∧ s1.pc < 4096 := by
  unfold cycle at h
  by_cases hg : s.pc < 0 ∨ (s.memory.length : Int) ≤ s.pc + 1
  · rw [if_pos hg] at h
    cases h
  · rw [if_neg hg] at h
    cases he : execute rnd (fetchWord s) s with
    | error e => rw [he] at h; cases h
    | ok s2 =>
      rw [he] at h
      have hs1 : s1 = endOfCycle s2 := by
        injection h with h2
        exact h2.symm
      rw [hs1, endOfCycle_pc]
      exact ⟨Int.emod_nonneg _ (by norm_num), Int.emod_lt_of_pos _ (by norm_num)⟩

/-! Pointwise characterization of the `load_rom` copy loop. -/

theorem copyRom_length (bs : List Nat) (i : Nat) (mem : List Nat) :
    (copyRom i bs mem).length = mem.length := by
  induction bs generalizing i mem with
  | nil => rfl
  | cons b rest ih =>
    rw [copyRom, ih]
    split <;> simp

theorem copyRom_lower (bs : List Nat) (i : Nat) (mem : List Nat) (j : Nat)
    (h : j < 0x200 + i) : nth (copyRom i bs mem) j = nth mem j := by
  induction bs generalizing i mem with
  | nil => rfl
  | cons b rest ih =>
    rw [copyRom, ih _ _ (by omega)]
    split
    · exact nth_set_ne _ _ _ _ (by omega)
    · rfl

theorem copyRom_get (bs : List Nat) (i : Nat) (mem : List Nat) (k : Nat)
    (hk : k < bs.length) (h4 : 0x200 + i + k < 4096) (hlen : 0x200 + i + k < mem.length) :
    nth (copyRom i bs mem) (0x200 + i + k) = nth bs k := by
  induction bs generalizing i mem k with
  | nil => simp at hk
  | cons b rest ih =>
    rw [copyRom, if_pos (by omega)]
    cases k with
    | zero =>
      rw [copyRom_lower rest (i + 1) _ _ (by omega)]
      simpa using nth_set_eq mem (0x200 + i) b (by omega)
    | succ k2 =>
      rw [nth_cons_succ]
      rw [show 0x200 + i + (k2 + 1) = 0x200 + (i + 1) + k2 from by omega]
      exact ih (i + 1) (mem.set (0x200 + i) b) k2 (by simpa using hk) (by omega)
        (by rw [List.length_set]; omega)

/-! Per-handler timer preservation (no handler except `_Fxxx` writes the
timers; `_Fxxx` does so only for `kk ∈ {0x15, 0x18}`). -/

theorem op0E0_timers (s : WState) :
    (op0E0 s).delay_timer = s.delay_timer ∧ (op0E0 s).sound_timer = s.sound_timer := ⟨rfl, rfl⟩

theorem op00EE_timers (s t : WState) (h : op00EE s = .ok t) :
    t.delay_timer = s.delay_timer ∧ t.sound_timer = s.sound_timer := by
  unfold op00EE at h
  cases hst : s.stack with
  | nil => rw [hst] at h; cases h
  | cons a rest =>
    rw [hst] at h
    injection h with h2
    rw [← h2]
    exact ⟨rfl, rfl⟩

theorem op2nnn_timers (w : Nat) (s t : WState) (h : op2nnn w s = .ok t) :
    t.delay_timer = s.delay_timer ∧ t.sound_timer = s.sound_timer := by
  unfold op2nnn at h
  split at h
  · cases h
  · injection h with h2
    rw [← h2]
    exact ⟨rfl, rfl⟩

theorem opDxyn_timers (w : Nat) (s t : WState) (h : opDxyn w s = .ok t) :
    t.delay_timer = s.delay_timer ∧ t.sound_timer = s.sound_timer := by
  simp only [opDxyn] at h
  cases hd : wkDrawRows s.memory s.index (nth s.gpio ((w >>> 8) &&& 0xF) % 64)
      (nth s.gpio ((w >>> 4) &&& 0xF) % 32) 0 (w &&& 0xF) (s.display_buffer, 0) with
  | error e => rw [hd] at h; cases h
  | ok p =>
    rw [hd] at h
    obtain ⟨buf, c⟩ := p
    injection h with h2
    rw [← h2]
    exact ⟨rfl, rfl⟩

set_option maxHeartbeats 3200000 in
theorem execute_preserves_timers (rnd w : Nat) (s t : WState)
    (hw : w &&& 0xF000 ≠ 0xF000) (h : execute rnd w s = .ok t) :
    t.delay_timer = s.delay_timer ∧ t.sound_timer = s.sound_timer := by
  simp only [execute] at h
  by_cases c0 : w &&& 0xF000 = 0x0000
  · rw [if_pos c0] at h
    by_cases cE0 : w = 0x00E0
    · rw [if_pos cE0] at h
      injection h with h2
      rw [← h2]; exact ⟨rfl, rfl⟩
    · rw [if_neg cE0] at h
      by_cases cEE : w = 0x00EE
      · rw [if_pos cEE] at h
        exact op00EE_timers s t h
      · rw [if_neg cEE] at h
        injection h with h2
        rw [← h2]; exact ⟨rfl, rfl⟩
  · rw [if_neg c0] at h
    by_cases c1 : w &&& 0xF000 = 0x1000
    · rw [if_pos c1] at h
      injection h with h2
      rw [← h2]; exact ⟨rfl, rfl⟩
    · rw [if_neg c1] at h
      by_cases c2 : w &&& 0xF000 = 0x2000
      · rw [if_pos c2] at h
        exact op2nnn_timers w s t h
      · rw [if_neg c2] at h
        by_cases c3 : w &&& 0xF000 = 0x3000
        · rw [if_pos c3] at h
          injection h with h2
          rw [← h2]
          constructor <;> (simp only [op3xkk]; split <;> rfl)
        · rw [if_neg c3] at h
          by_cases c4 : w &&& 0xF000 = 0x4000
          · rw [if_pos c4] at h
            injection h with h2
            rw [← h2]
            constructor <;> (simp only [op4xkk]; split <;> rfl)
          · rw [if_neg c4] at h
            by_cases c5 : w &&& 0xF000 = 0x5000
            · rw [if_pos c5] at h
              injection h with h2
              rw [← h2]
              constructor <;> (simp only [op5xy0]; split_ifs <;> rfl)
            · rw [if_neg c5] at h
              by_cases c6 : w &&& 0xF000 = 0x6000
              · rw [if_pos c6] at h
                injection h with h2
                rw [← h2]; exact ⟨rfl, rfl⟩
              · rw [if_neg c6] at h
                by_cases c7 : w &&& 0xF000 = 0x7000
                · rw [if_pos c7] at h
                  injection h with h2
                  rw [← h2]; exact ⟨rfl, rfl⟩
                · rw [if_neg c7] at h
                  by_cases c8 : w &&& 0xF000 = 0x8000
                  · rw [if_pos c8] at h
                    injection h with h2
                    rw [← h2]
                    constructor <;> (simp only [op8xxx]; split_ifs <;> rfl)
                  · rw [if_neg c8] at h
                    by_cases c9 : w &&& 0xF000 = 0x9000
                    · rw [if_pos c9] at h
                      injection h with h2
                      rw [← h2]
                      constructor <;> (simp only [op9xy0]; split_ifs <;> rfl)
                    · rw [if_neg c9] at h
                      by_cases cA : w &&& 0xF000 = 0xA000
                      · rw [if_pos cA] at h
                        injection h with h2
                        rw [← h2]; exact ⟨rfl, rfl⟩
                      · rw [if_neg cA] at h
                        by_cases cB : w &&& 0xF000 = 0xB000
                        · rw [if_pos cB] at h
                          injection h with h2
                          rw [← h2]; exact ⟨rfl, rfl⟩
                        · rw [if_neg cB] at h
                          by_cases cC : w &&& 0xF000 = 0xC000
                          · rw [if_pos cC] at h
                            injection h with h2
                            rw [← h2]; exact ⟨rfl, rfl⟩
                          · rw [if_neg cC] at h
                            by_cases cD : w &&& 0xF000 = 0xD000
                            · rw [if_pos cD] at h
                              exact opDxyn_timers w s t h
                            · rw [if_neg cD] at h
                              by_cases cE : w &&& 0xF000 = 0xE000
                              · rw [if_pos cE] at h
                                injection h with h2
                                rw [← h2]
                                constructor <;> (simp only [opExxx]; split_ifs <;> rfl)
                              · rw [if_neg cE] at h
                                by_cases cF : w &&& 0xF000 = 0xF000
                                · exact absurd cF hw
                                · rw [if_neg cF] at h
                                  injection h with h2
                                  rw [← h2]; exact ⟨rfl, rfl⟩

theorem cycle_pc_fault (rnd : Nat) (s : WState) (hm : s.memory.length = 4096)
    (hpc : s.pc = 0xFFF) : cycle rnd s = .error .pcOutOfBounds := by
  unfold cycle
  rw [if_pos (by rw [hm, hpc]; right; norm_num)]

theorem load_rom_memory (data : List Nat) (s : WState) :
    (load_rom data s).memory = copyRom 0 data s.memory := rfl

theorem cycle_waitkey (rnd : Nat) (s : WState) (hf : fetchOk s)
    (hw : fetchWord s &&& 0xF0FF = 0xF00A) :
    cycle rnd s =
      .ok (endOfCycle
        (match findPressed 0 s.key_inputs with
         | none => { s with pc := (s.pc - 2) % 4096 }
         | some i => { s with gpio := s.gpio.set ((fetchWord s >>> 8) &&& 0xF) i })) := by
  have hpfx : fetchWord s &&& 0xF000 = 0xF000 :=
    mask_of_mask (fetchWord s) 0xF0FF 0xF000 0xF00A 0xF000 hw (by decide) (by decide)
  have hkk : fetchWord s &&& 0xFF = 0x0A :=
    mask_of_mask (fetchWord s) 0xF0FF 0xFF 0xF00A 0x0A hw (by decide) (by decide)
  rw [cycle_eq rnd s hf, execute_fxxx rnd (fetchWord s) s hpfx,
      opFxxx_waitkey (fetchWord s) s hkk]

end Working

/-! Concrete machine states used by the counterexamples and witnesses. -/

/-- A minimal Working-engine state: zeroed registers and keys, empty memory
and stack, PC 0. -/
def baseW : Working.WState where
  memory := []
  gpio := List.replicate 16 0
  index := 0
  pc := 0
  stack := []
  delay_timer := 0
  sound_timer := 0
  display_buffer := []
  key_inputs := List.replicate 16 0
  should_draw := false
  sound_playing := false
  has_exit := false

/-- 4096-byte memory holding `JP 0xFFF` (1FFF) at address 0x200. -/
def c1mem : List Nat := ((List.replicate 4096 0).set 0x200 0x1F).set 0x201 0xFF

def c1s0 : Working.WState := { baseW with memory := c1mem, pc := 0x200 }

def c1s1 : Working.WState := { c1s0 with pc := 0xFFF }

theorem c1mem_len : c1mem.length = 4096 := by
  show (((List.replicate 4096 0).set 0x200 0x1F).set 0x201 0xFF).length = 4096
  rw [List.length_set, List.length_set, List.length_replicate]

theorem c1s0_fetchOk : Working.fetchOk c1s0 := by
  constructor
  · show (0 : Int) ≤ 0x200
    norm_num
  · show (0x200 : Int) + 1 < ((c1mem.length : Nat) : Int)
    rw [c1mem_len]
    norm_num

set_option maxRecDepth 4000 in
theorem c1s0_word : Working.fetchWord c1s0 = 0x1FFF := by
  show nth c1mem 0x200 <<< 8 ||| nth c1mem (0x200 + 1) = 0x1FFF
  have h1 : nth c1mem 0x200 = 0x1F := by
    show nth (((List.replicate 4096 0).set 0x200 0x1F).set 0x201 0xFF) 0x200 = 0x1F
    rw [nth_set_ne _ _ _ _ (by norm_num)]
    exact nth_set_eq _ _ _ (by rw [List.length_replicate]; norm_num)
  have h2 : nth c1mem (0x200 + 1) = 0xFF := by
    show nth (((List.replicate 4096 0).set 0x200 0x1F).set 0x201 0xFF) 0x201 = 0xFF
    exact nth_set_eq _ _ _ (by rw [List.length_set, List.length_replicate]; norm_num)
  rw [h1, h2]
  decide

theorem cycle_c1s0 : Working.cycle 0 c1s0 = .ok c1s1 := by
  have h := Working.cycle_jp 0 c1s0 c1s0_fetchOk (by rw [c1s0_word]; decide)
  rw [c1s0_word] at h
  exact h

/-- **C1, counterexample.**  The claim says `JP 0xFFF` followed by the next
fetch-execute step reads the instruction bytes at 0xFFF and 0x000 under
12-bit masking and never raises an out-of-range fault.  On the code, the
jump does set PC to 0xFFF, but the next `cycle` hits the literal guard
`self.pc+1 >= len(self.memory)` (0x1000 ≥ 4096) and raises
`PC out of bounds` instead of reading memory at 0xFFF/0x000. -/
theorem c1_counterexample :
    Working.cycle 0 c1s0 = .ok c1s1 ∧
    Working.cycle 0 c1s1 = .error Working.WErr.pcOutOfBounds :=
  ⟨cycle_c1s0, Working.cycle_pc_fault 0 c1s1 c1mem_len rfl⟩

/-- **C1 (amended).**  In the final engine every successful `cycle` leaves
PC masked to 12 bits (`0 ≤ pc < 4096`), and `JP nnn` lands exactly on
`nnn`; but the fetch of a step starting at PC = 0xFFF (so `pc+1 = 4096`,
one past the 4096-byte memory) raises the fatal `PC out of bounds` fault
rather than wrapping around to read 0xFFF/0x000. -/
theorem c1_wraparound_amended :
    (∀ (rnd : Nat) (s s1 : Working.WState), Working.cycle rnd s = .ok s1 →
       0 ≤ s1.pc ∧ s1.pc < 4096) ∧
    (∀ (rnd : Nat) (s : Working.WState), Working.fetchOk s →
       Working.fetchWord s &&& 0xF000 = 0x1000 →
       ∃ s1, Working.cycle rnd s = .ok s1 ∧
         s1.pc = ((Working.fetchWord s &&& 0x0FFF : Nat) : Int)) ∧
    (∀ (rnd : Nat) (s : Working.WState), s.memory.length = 4096 → s.pc = 0xFFF →
       Working.cycle rnd s = .error Working.WErr.pcOutOfBounds) := by
  refine ⟨fun rnd s s1 h => Working.cycle_ok_pc rnd s s1 h, ?_, ?_⟩
  · intro rnd s hf hw
    refine ⟨_, Working.cycle_jp rnd s hf hw, ?_⟩
    rw [Working.endOfCycle_pc]
    have h1 := nnn_lt (Working.fetchWord s)
    show (((Working.fetchWord s &&& 0x0FFF : Nat) : Int) - 2 + 2) % 4096 = _
    omega
  · intro rnd s hm hpc
    exact Working.cycle_pc_fault rnd s hm hpc

/-- **C1, witness.** -/
theorem c1_witness :
    (0 ≤ c1s1.pc ∧ c1s1.pc < 4096) ∧
    (∃ s1, Working.cycle 0 c1s0 = .ok s1 ∧
       s1.pc = ((Working.fetchWord c1s0 &&& 0x0FFF : Nat) : Int)) ∧
    Working.cycle 0 c1s1 = .error Working.WErr.pcOutOfBounds :=
  ⟨c1_wraparound_amended.1 0 c1s0 c1s1 cycle_c1s0,
   c1_wraparound_amended.2.1 0 c1s0 c1s0_fetchOk (by rw [c1s0_word]; decide),
   c1_wraparound_amended.2.2 0 c1s1 c1mem_len rfl⟩

def c2sA : Working.WState := { baseW with memory := [0x22, 0x00] }

def c2sB : Working.WState :=
  { baseW with memory := [0x22, 0x00], stack := List.replicate 16 0 }

def c2sC : Working.WState := { baseW with memory := [0x00, 0xEE] }

def c2sD : Working.WState := { baseW with has_exit := true }

/-- **C2.**  Stack discipline of the final engine: a CALL with fewer than 16
pending return addresses succeeds and pushes the caller's PC; a CALL with
16 pending addresses fails with the stack-overflow fault; a RET with an
empty stack fails with the stack-underflow fault; a faulting `cycle` makes
`_cpu_tick` set `has_exit` (Halted) leaving everything else unchanged; and
once `has_exit` is set, `_cpu_tick` is a no-op.  Sixteen consecutive CALLs
from an empty stack fall under the first clause (depths 0..15), the 17th
under the second. -/
theorem c2_stack_discipline :
    (∀ (rnd : Nat) (s : Working.WState), Working.fetchOk s →
       Working.fetchWord s &&& 0xF000 = 0x2000 → s.stack.length < 16 →
       ∃ s1, Working.cycle rnd s = .ok s1 ∧ s1.stack = s.pc :: s.stack) ∧
    (∀ (rnd : Nat) (s : Working.WState), Working.fetchOk s →
       Working.fetchWord s &&& 0xF000 = 0x2000 → 16 ≤ s.stack.length →
       Working.cycle rnd s = .error Working.WErr.stackOverflow) ∧
    (∀ (rnd : Nat) (s : Working.WState), Working.fetchOk s →
       Working.fetchWord s = 0x00EE → s.stack = [] →
       Working.cycle rnd s = .error Working.WErr.stackUnderflow) ∧
    (∀ (rnd : Nat) (s : Working.WState) (e : Working.WErr), s.has_exit = false →
       Working.cycle rnd s = .error e →
       Working.cpu_tick rnd s = { s with has_exit := true }) ∧
    (∀ (rnd : Nat) (s : Working.WState), s.has_exit = true →
       Working.cpu_tick rnd s = s) := by
  refine ⟨?_, ?_, ?_, ?_, ?_⟩
  · intro rnd s hf hw hlen
    exact ⟨_, Working.cycle_call_ok rnd s hf hw hlen, rfl⟩
  · intro rnd s hf hw hlen
    exact Working.cycle_call_overflow rnd s hf hw hlen
  · intro rnd s hf hw hst
    exact Working.cycle_ret_underflow rnd s hf hw hst
  · intro rnd s e hexit hc
    unfold Working.cpu_tick
    rw [if_neg (by simp [hexit]), hc]
  · intro rnd s hexit
    unfold Working.cpu_tick
    rw [if_pos hexit]

/-- **C2, witness.** -/
theorem c2_witness :
    (∃ s1, Working.cycle 0 c2sA = .ok s1 ∧ s1.stack = c2sA.pc :: c2sA.stack) ∧
    Working.cycle 0 c2sB = .error Working.WErr.stackOverflow ∧
    Working.cycle 0 c2sC = .error Working.WErr.stackUnderflow ∧
    Working.cpu_tick 0 c2sB = { c2sB with has_exit := true } ∧
    Working.cpu_tick 0 c2sD = c2sD := by
  have hB := c2_stack_discipline.2.1 0 c2sB (by decide) (by decide) (by decide)
  exact ⟨c2_stack_discipline.1 0 c2sA (by decide) (by decide) (by decide),
    hB,
    c2_stack_discipline.2.2.1 0 c2sC (by decide) (by decide) rfl,
    c2_stack_discipline.2.2.2.1 0 c2sB Working.WErr.stackOverflow rfl hB,
    c2_stack_discipline.2.2.2.2 0 c2sD rfl⟩

/-- **C3.**  Key-wait semantics of `Fx0A`: with every key unpressed, a step
leaves PC and the whole register file unchanged (the instruction will be
re-decoded next cycle); from an all-unpressed state, after `set_key k true`
the next step stores `k` in Vx, leaves the other registers unchanged, and
advances PC past the instruction. -/
theorem c3_key_wait :
    (∀ (rnd : Nat) (s : Working.WState), Working.fetchOk s → s.pc < 4096 →
       Working.fetchWord s &&& 0xF0FF = 0xF00A →
       (∀ v ∈ s.key_inputs, v = 0) →
       ∃ s1, Working.cycle rnd s = .ok s1 ∧ s1.pc = s.pc ∧ s1.gpio = s.gpio) ∧
    (∀ (rnd : Nat) (s : Working.WState) (k : Nat), Working.fetchOk s →
       Working.fetchWord s &&& 0xF0FF = 0xF00A →
       s.gpio.length = 16 → k < s.key_inputs.length →
       (∀ v ∈ s.key_inputs, v = 0) →
       ∃ s1, Working.cycle rnd (Working.set_key k true s) = .ok s1 ∧
         nth s1.gpio ((Working.fetchWord s >>> 8) &&& 0xF) = k ∧
         s1.pc = (s.pc + 2) % 4096 ∧
         (∀ j, j ≠ (Working.fetchWord s >>> 8) &&& 0xF →
           nth s1.gpio j = nth s.gpio j)) := by
  constructor
  · intro rnd s hf hpc hw hkeys
    have hcy := Working.cycle_waitkey rnd s hf hw
    rw [findPressed_none s.key_inputs 0 hkeys] at hcy
    refine ⟨_, hcy, ?_, rfl⟩
    obtain ⟨h0, _⟩ := hf
    show ((s.pc - 2) % 4096 + 2) % 4096 = s.pc
    omega
  · intro rnd s k hf hw hglen hklen hkeys
    have hft : Working.fetchOk (Working.set_key k true s) := hf
    have hcy := Working.cycle_waitkey rnd (Working.set_key k true s) hft hw
    have hfind : findPressed 0 (Working.set_key k true s).key_inputs = some k := by
      simpa using findPressed_set_one s.key_inputs 0 k hkeys hklen
    rw [hfind] at hcy
    refine ⟨_, hcy, ?_, rfl, ?_⟩
    · show nth (s.gpio.set ((Working.fetchWord s >>> 8) &&& 0xF) k) _ = k
      exact nth_set_eq _ _ _ (by rw [hglen]; exact xlo_lt (Working.fetchWord s))
    · intro j hj
      show nth (s.gpio.set ((Working.fetchWord s >>> 8) &&& 0xF) k) j = nth s.gpio j
      exact nth_set_ne _ _ _ _ (Ne.symm hj)

def c3s0 : Working.WState := { baseW with memory := [0xF1, 0x0A] }

/-- **C3, witness.** -/
theorem c3_witness :
    (∃ s1, Working.cycle 0 c3s0 = .ok s1 ∧ s1.pc = c3s0.pc ∧ s1.gpio = c3s0.gpio) ∧
    (∃ s1, Working.cycle 0 (Working.set_key 3 true c3s0) = .ok s1 ∧
       nth s1.gpio ((Working.fetchWord c3s0 >>> 8) &&& 0xF) = 3 ∧
       s1.pc = (c3s0.pc + 2) % 4096 ∧
       (∀ j, j ≠ (Working.fetchWord c3s0 >>> 8) &&& 0xF →
         nth s1.gpio j = nth c3s0.gpio j)) :=
  ⟨c3_key_wait.1 0 c3s0 (by decide) (by decide) (by decide) (by decide),
   c3_key_wait.2 0 c3s0 3 (by decide) (by decide) (by decide) (by decide) (by decide)⟩

def c4s0 : Working.WState := { baseW with memory := [0x7F, 0x01] }

def c4s1 : Working.WState :=
  { c4s0 with gpio := (List.replicate 16 0).set 15 1, pc := 2 }

/-- **C4, counterexample.**  The claim says that for every register index x
(0-15) opcode 7xkk leaves VF unmodified.  With x = 0xF the opcode writes
VF itself: executing 0x7F01 from an all-zero register file changes VF from
0 to 1. -/
theorem c4_counterexample :
    Working.cycle 0 c4s0 = .ok c4s1 ∧ nth c4s1.gpio 0xF ≠ nth c4s0.gpio 0xF := by
  constructor
  · decide
  · decide

/-- **C4 (amended).**  Executing 7xkk sets Vx to (Vx + kk) mod 256 and
leaves every other register unmodified — in particular VF is unmodified
whenever x ≠ 0xF (when x = 0xF the target register is VF itself). -/
theorem c4_add_immediate :
    ∀ (rnd : Nat) (s : Working.WState), Working.fetchOk s → s.gpio.length = 16 →
      Working.fetchWord s &&& 0xF000 = 0x7000 →
      ∃ s1, Working.cycle rnd s = .ok s1 ∧
        nth s1.gpio ((Working.fetchWord s &&& 0x0F00) >>> 8) =
          (nth s.gpio ((Working.fetchWord s &&& 0x0F00) >>> 8) +
            (Working.fetchWord s &&& 0xFF)) % 256 ∧
        ∀ j, j ≠ (Working.fetchWord s &&& 0x0F00) >>> 8 →
          nth s1.gpio j = nth s.gpio j := by
  intro rnd s hf hglen hw
  refine ⟨_, Working.cycle_add7 rnd s hf hw, ?_, ?_⟩
  · show nth (s.gpio.set ((Working.fetchWord s &&& 0x0F00) >>> 8)
        ((nth s.gpio ((Working.fetchWord s &&& 0x0F00) >>> 8) +
          (Working.fetchWord s &&& 0xFF)) &&& 0xFF)) _ = _
    rw [nth_set_eq _ _ _ (by rw [hglen]; exact xhi_lt (Working.fetchWord s))]
    exact and_255_eq_mod _
  · intro j hj
    show nth (s.gpio.set ((Working.fetchWord s &&& 0x0F00) >>> 8) _) j = nth s.gpio j
    exact nth_set_ne _ _ _ _ (Ne.symm hj)

/-- **C4, witness.** -/
theorem c4_witness :
    ∃ s1, Working.cycle 0 c4s0 = .ok s1 ∧
      nth s1.gpio ((Working.fetchWord c4s0 &&& 0x0F00) >>> 8) =
        (nth c4s0.gpio ((Working.fetchWord c4s0 &&& 0x0F00) >>> 8) +
          (Working.fetchWord c4s0 &&& 0xFF)) % 256 ∧
      ∀ j, j ≠ (Working.fetchWord c4s0 &&& 0x0F00) >>> 8 →
        nth s1.gpio j = nth c4s0.gpio j :=
  c4_add_immediate 0 c4s0 (by decide) (by decide) (by decide)

/-- **C6.**  CALL/RET round trip: if a step executes `2nnn` (pushing the
caller's PC), and a later state with the same stack executes `00EE`, the
PC after the RET step is the address immediately following the original
CALL (under the engine's 12-bit PC masking). -/
theorem c6_call_ret_roundtrip :
    ∀ (rnd1 rnd2 : Nat) (s s1 s2 s3 : Working.WState),
      Working.fetchOk s → Working.fetchWord s &&& 0xF000 = 0x2000 →
      Working.cycle rnd1 s = .ok s1 →
      s2.stack = s1.stack →
      Working.fetchOk s2 → Working.fetchWord s2 = 0x00EE →
      Working.cycle rnd2 s2 = .ok s3 →
      s3.pc = (s.pc + 2) % 4096 := by
  intro rnd1 rnd2 s s1 s2 s3 hf hw h3 h4 hf2 hw2 h7
  rcases Nat.lt_or_ge s.stack.length 16 with hlen | hlen
  · rw [Working.cycle_call_ok rnd1 s hf hw hlen] at h3
    injection h3 with h3e
    have hstack2 : s2.stack = s.pc :: s.stack := by
      rw [h4, ← h3e]
      rfl
    rw [Working.cycle_ret_ok rnd2 s2 s.pc s.stack hf2 hw2 hstack2] at h7
    injection h7 with h7e
    rw [← h7e]
    rfl
  · rw [Working.cycle_call_overflow rnd1 s hf hw hlen] at h3
    simp at h3

/-- 4096-byte memory: `CALL 0x204` at 0x200, `RET` at 0x204. -/
def c6mem : List Nat :=
  ((((List.replicate 4096 0).set 0x200 0x22).set 0x201 0x04).set 0x204 0x00).set 0x205 0xEE

def c6s0 : Working.WState := { baseW with memory := c6mem, pc := 0x200 }

def c6s1 : Working.WState := { c6s0 with stack := [0x200], pc := 0x204 }

def c6s3 : Working.WState := { c6s0 with pc := 0x202 }

theorem c6mem_len : c6mem.length = 4096 := by
  show ((((((List.replicate 4096 0).set 0x200 0x22).set 0x201 0x04).set
    0x204 0x00).set 0x205 0xEE)).length = 4096
  rw [List.length_set, List.length_set, List.length_set, List.length_set,
      List.length_replicate]

theorem c6s0_fetchOk : Working.fetchOk c6s0 := by
  constructor
  · show (0 : Int) ≤ 0x200
    norm_num
  · show (0x200 : Int) + 1 < ((c6mem.length : Nat) : Int)
    rw [c6mem_len]
    norm_num

theorem c6s1_fetchOk : Working.fetchOk c6s1 := by
  constructor
  · show (0 : Int) ≤ 0x204
    norm_num
  · show (0x204 : Int) + 1 < ((c6mem.length : Nat) : Int)
    rw [c6mem_len]
    norm_num

set_option maxRecDepth 4000 in
theorem c6s0_word : Working.fetchWord c6s0 = 0x2204 := by
  show nth c6mem 0x200 <<< 8 ||| nth c6mem (0x200 + 1) = 0x2204
  have h1 : nth c6mem 0x200 = 0x22 := by
    show nth ((((((List.replicate 4096 0).set 0x200 0x22).set 0x201 0x04).set
      0x204 0x00).set 0x205 0xEE)) 0x200 = 0x22
    rw [nth_set_ne _ _ _ _ (by norm_num), nth_set_ne _ _ _ _ (by norm_num),
        nth_set_ne _ _ _ _ (by norm_num)]
    exact nth_set_eq _ _ _ (by rw [List.length_replicate]; norm_num)
  have h2 : nth c6mem (0x200 + 1) = 0x04 := by
    show nth ((((((List.replicate 4096 0).set 0x200 0x22).set 0x201 0x04).set
      0x204 0x00).set 0x205 0xEE)) 0x201 = 0x04
    rw [nth_set_ne _ _ _ _ (by norm_num), nth_set_ne _ _ _ _ (by norm_num)]
    exact nth_set_eq _ _ _ (by rw [List.length_set, List.length_replicate]; norm_num)
  rw [h1, h2]
  decide

set_option maxRecDepth 4000 in
theorem c6s1_word : Working.fetchWord c6s1 = 0x00EE := by
  show nth c6mem 0x204 <<< 8 ||| nth c6mem (0x204 + 1) = 0x00EE
  have h1 : nth c6mem 0x204 = 0x00 := by
    show nth ((((((List.replicate 4096 0).set 0x200 0x22).set 0x201 0x04).set
      0x204 0x00).set 0x205 0xEE)) 0x204 = 0x00
    rw [nth_set_ne _ _ _ _ (by norm_num)]
    exact nth_set_eq _ _ _
      (by rw [List.length_set, List.length_set, List.length_replicate]; norm_num)
  have h2 : nth c6mem (0x204 + 1) = 0xEE := by
    show nth ((((((List.replicate 4096 0).set 0x200 0x22).set 0x201 0x04).set
      0x204 0x00).set 0x205 0xEE)) 0x205 = 0xEE
    exact nth_set_eq _ _ _
      (by rw [List.length_set, List.length_set, List.length_set,
              List.length_replicate]; norm_num)
  rw [h1, h2]
  decide

theorem cycle_c6s0 : Working.cycle 0 c6s0 = .ok c6s1 := by
  have h := Working.cycle_call_ok 0 c6s0 c6s0_fetchOk (by rw [c6s0_word]; decide)
    (by show ([] : List Int).length < 16; simp)
  rw [c6s0_word] at h
  exact h

theorem cycle_c6s1 : Working.cycle 0 c6s1 = .ok c6s3 := by
  have h := Working.cycle_ret_ok 0 c6s1 0x200 [] c6s1_fetchOk c6s1_word rfl
  exact h

/-- **C6, witness.** -/
theorem c6_witness : c6s3.pc = (c6s0.pc + 2) % 4096 :=
  c6_call_ret_roundtrip 0 0 c6s0 c6s1 c6s1 c6s3 c6s0_fetchOk (by rw [c6s0_word]; decide)
    cycle_c6s0 rfl c6s1_fetchOk c6s1_word cycle_c6s1

/-- **C8 (amended).**  `load_rom` never rejects a ROM: it copies each byte
`i` of the ROM to memory address `0x200 + i` for every `i` with
`0x200 + i < 4096` (i.e. the first 3584 bytes), silently drops the rest,
never grows memory, and leaves the first 0x200 bytes untouched. -/
theorem c8_rom_load_amended :
    ∀ (data : List Nat) (s : Working.WState), s.memory.length = 4096 →
      (Working.load_rom data s).memory.length = 4096 ∧
      (∀ i, i < data.length → 0x200 + i < 4096 →
        nth (Working.load_rom data s).memory (0x200 + i) = nth data i) ∧
      (∀ j, j < 0x200 → nth (Working.load_rom data s).memory j = nth s.memory j) := by
  intro data s hm
  refine ⟨?_, ?_, ?_⟩
  · show (Working.copyRom 0 data s.memory).length = 4096
    rw [Working.copyRom_length, hm]
  · intro i hi h4
    show nth (Working.copyRom 0 data s.memory) (0x200 + i) = nth data i
    have := Working.copyRom_get data 0 s.memory i hi (by omega) (by omega)
    simpa using this
  · intro j hj
    show nth (Working.copyRom 0 data s.memory) j = nth s.memory j
    exact Working.copyRom_lower data 0 s.memory j (by omega)

def c8s : Working.WState := { baseW with memory := List.replicate 4096 0 }

/-- A ROM one byte longer than the 4096 − 0x200 = 3584-byte limit. -/
def c8rom : List Nat := List.replicate 3585 7

set_option maxRecDepth 4000 in
/-- **C8, counterexample.**  The claim says a ROM longer than 3584 bytes is
rejected with `RomTooLarge` and the load aborted.  The code has no failure
path at all: loading a 3585-byte ROM proceeds normally — its first byte is
written at 0x200, memory keeps its 4096-byte length, and the excess byte is
silently dropped. -/
theorem c8_counterexample :
    3584 < c8rom.length ∧
    (Working.load_rom c8rom c8s).memory.length = 4096 ∧
    nth (Working.load_rom c8rom c8s).memory 0x200 = 7 := by
  have hrom : c8rom = List.replicate 3585 7 := rfl
  have hmem : c8s.memory = List.replicate 4096 0 := rfl
  refine ⟨by rw [hrom, List.length_replicate]; norm_num, ?_, ?_⟩
  · rw [Working.load_rom_memory, Working.copyRom_length, hmem, List.length_replicate]
  · rw [Working.load_rom_memory]
    have h := Working.copyRom_get c8rom 0 c8s.memory 0
      (by rw [hrom, List.length_replicate]; norm_num)
      (by norm_num)
      (by rw [hmem, List.length_replicate]; norm_num)
    rw [show (0x200 : Nat) + 0 + 0 = 0x200 from rfl] at h
    rw [h, hrom]
    rfl

/-- **C8, witness.** -/
theorem c8_witness :
    (Working.load_rom [1, 2, 3] c8s).memory.length = 4096 ∧
    (∀ i, i < ([1, 2, 3] : List Nat).length → 0x200 + i < 4096 →
      nth (Working.load_rom [1, 2, 3] c8s).memory (0x200 + i) = nth [1, 2, 3] i) ∧
    (∀ j, j < 0x200 → nth (Working.load_rom [1, 2, 3] c8s).memory j = nth c8s.memory j) :=
  c8_rom_load_amended [1, 2, 3] c8s
    (by rw [show c8s.memory = List.replicate 4096 0 from rfl, List.length_replicate])

theorem opFxxx_timers (w : Nat) (s : Working.WState)
    (h15 : w &&& 0xFF ≠ 0x15) (h18 : w &&& 0xFF ≠ 0x18) :
    (Working.opFxxx w s).delay_timer = s.delay_timer ∧
    (Working.opFxxx w s).sound_timer = s.sound_timer := by
  simp only [Working.opFxxx]
  by_cases c07 : w &&& 0xFF = 0x07
  · rw [if_pos c07]
    exact ⟨rfl, rfl⟩
  · rw [if_neg c07]
    by_cases c0A : w &&& 0xFF = 0x0A
    · rw [if_pos c0A]
      cases hk : findPressed 0 s.key_inputs with
      | none => exact ⟨rfl, rfl⟩
      | some i => exact ⟨rfl, rfl⟩
    · rw [if_neg c0A, if_neg h15, if_neg h18]
      by_cases c1E : w &&& 0xFF = 0x1E
      · rw [if_pos c1E]
        exact ⟨rfl, rfl⟩
      · rw [if_neg c1E]
        by_cases c29 : w &&& 0xFF = 0x29
        · rw [if_pos c29]
          exact ⟨rfl, rfl⟩
        · rw [if_neg c29]
          by_cases c33 : w &&& 0xFF = 0x33
          · rw [if_pos c33]
            by_cases cI : s.index < 4094
            · rw [if_pos cI]
              exact ⟨rfl, rfl⟩
            · rw [if_neg cI]
              exact ⟨rfl, rfl⟩
          · rw [if_neg c33]
            by_cases c55 : w &&& 0xFF = 0x55
            · rw [if_pos c55]
              exact ⟨rfl, rfl⟩
            · rw [if_neg c55]
              by_cases c65 : w &&& 0xFF = 0x65
              · rw [if_pos c65]
                exact ⟨rfl, rfl⟩
              · rw [if_neg c65]
                exact ⟨rfl, rfl⟩

def c9s0 : Working.WState :=
  { baseW with memory := [0x60, 0x05], delay_timer := 5, sound_timer := 3 }

def c9s1 : Working.WState :=
  { c9s0 with gpio := (List.replicate 16 0).set 0 5, pc := 2,
              delay_timer := 4, sound_timer := 2 }

/-- **C9, counterexample.**  The claim says a step executing any
instruction other than Fx15/Fx18 leaves both timers unchanged.  In the
final engine `cycle` itself decrements the timers at the end of every
step: executing `LD V0, 5` (0x6005) with delay = 5 and sound = 3 leaves
them at 4 and 2. -/
theorem c9_counterexample :
    Working.cycle 0 c9s0 = .ok c9s1 ∧
    c9s1.delay_timer ≠ c9s0.delay_timer ∧ c9s1.sound_timer ≠ c9s0.sound_timer := by
  refine ⟨by decide, by decide, by decide⟩

/-- **C9 (amended).**  `_timer_tick` decrements each timer by exactly 1
when positive and leaves it at 0 otherwise; but the timers are not
modified *only* by `_timer_tick` and Fx15/Fx18 — every `cycle`, whatever
instruction it executes, also applies the same decrement to both timers
at the end of the step (acting on the timer values the executed
instruction left behind), so every step executing any instruction other
than Fx15/Fx18 — which overwrite a timer first — decrements the timers it
started with. -/
theorem c9_timers_amended :
    (∀ s : Working.WState,
       ((Working.timer_tick s).delay_timer =
         if 0 < s.delay_timer then s.delay_timer - 1 else s.delay_timer) ∧
       ((Working.timer_tick s).sound_timer =
         if 0 < s.sound_timer then s.sound_timer - 1 else s.sound_timer)) ∧
    (∀ (rnd : Nat) (s s1 : Working.WState), Working.fetchOk s →
       Working.cycle rnd s = .ok s1 →
       ∃ s2, Working.execute rnd (Working.fetchWord s) s = .ok s2 ∧
         (s1.delay_timer =
           if 0 < s2.delay_timer then s2.delay_timer - 1 else s2.delay_timer) ∧
         (s1.sound_timer =
           if 0 < s2.sound_timer then s2.sound_timer - 1 else s2.sound_timer)) ∧
    (∀ (rnd : Nat) (s s1 : Working.WState), Working.fetchOk s →
       (Working.fetchWord s &&& 0xF000 ≠ 0xF000 ∨
         (Working.fetchWord s &&& 0xFF ≠ 0x15 ∧ Working.fetchWord s &&& 0xFF ≠ 0x18)) →
       Working.cycle rnd s = .ok s1 →
       (s1.delay_timer = if 0 < s.delay_timer then s.delay_timer - 1 else s.delay_timer) ∧
       (s1.sound_timer = if 0 < s.sound_timer then s.sound_timer - 1 else s.sound_timer)) := by
  refine ⟨?_, ?_, ?_⟩
  · intro s
    by_cases hd : 0 < s.delay_timer <;> by_cases hs : 0 < s.sound_timer <;>
      simp [Working.timer_tick, hd, hs]
  · intro rnd s s1 hf hc
    rw [Working.cycle_eq rnd s hf] at hc
    cases he : Working.execute rnd (Working.fetchWord s) s with
    | error e =>
      rw [he] at hc
      cases hc
    | ok s2 =>
      rw [he] at hc
      injection hc with hce
      exact ⟨s2, rfl, by rw [← hce, Working.endOfCycle_delay],
        by rw [← hce, Working.endOfCycle_sound]⟩
  · intro rnd s s1 hf hw hc
    rw [Working.cycle_eq rnd s hf] at hc
    cases he : Working.execute rnd (Working.fetchWord s) s with
    | error e =>
      rw [he] at hc
      cases hc
    | ok s2 =>
      rw [he] at hc
      injection hc with hce
      have hpres : s2.delay_timer = s.delay_timer ∧ s2.sound_timer = s.sound_timer := by
        by_cases hfx : Working.fetchWord s &&& 0xF000 = 0xF000
        · rcases hw with hnf | ⟨h15, h18⟩
          · exact absurd hfx hnf
          · have hfx2 := Working.execute_fxxx rnd (Working.fetchWord s) s hfx
            rw [hfx2] at he
            injection he with he2
            rw [← he2]
            exact opFxxx_timers (Working.fetchWord s) s h15 h18
        · exact Working.execute_preserves_timers rnd (Working.fetchWord s) s s2 hfx he
      rw [← hce]
      constructor
      · rw [Working.endOfCycle_delay, hpres.1]
      · rw [Working.endOfCycle_sound, hpres.2]

/-- **C9, witness** (the step `LD V0, 5` from delay = 5, sound = 3). -/
theorem c9_witness :
    ((Working.timer_tick c9s0).delay_timer =
      if 0 < c9s0.delay_timer then c9s0.delay_timer - 1 else c9s0.delay_timer) ∧
    (∃ s2, Working.execute 0 (Working.fetchWord c9s0) c9s0 = .ok s2 ∧
      (c9s1.delay_timer =
        if 0 < s2.delay_timer then s2.delay_timer - 1 else s2.delay_timer) ∧
      (c9s1.sound_timer =
        if 0 < s2.sound_timer then s2.sound_timer - 1 else s2.sound_timer)) ∧
    (c9s1.delay_timer =
      if 0 < c9s0.delay_timer then c9s0.delay_timer - 1 else c9s0.delay_timer) :=
  ⟨(c9_timers_amended.1 c9s0).1,
   c9_timers_amended.2.1 0 c9s0 c9s1 (by decide) (by decide),
   (c9_timers_amended.2.2 0 c9s0 c9s1 (by decide) (Or.inl (by decide)) (by decide)).1⟩

/-- A minimal dispatch-table-engine state: two-byte memory holding the
word 0x0000, zeroed registers, timers and keys. -/
def baseN : Numpy.NState where
  memory := [0x00, 0x00]
  vram := []
  V := List.replicate 16 0
  I := 0
  pc := 0
  stack := List.replicate 16 0
  sp := 0
  keys := List.replicate 16 0
  delay := 0
  sound := 0
  sound_playing := true
  should_draw := true

/-- **C7.**  If the fetched word matches no `(mask, pattern)` entry of the
dispatch table, `tick` is not fatal: it returns normally with PC advanced
by 2 (as `np.uint16`), the decode failure reported (the `Unknown opcode`
print, modelled by the returned flag), and registers, memory, stack,
timers, key state and framebuffer all left unchanged — the returned state
is exactly the input state with only `pc` updated. -/
theorem c7_unknown_opcode :
    ∀ (rnd : Nat) (s : Numpy.NState), s.pc + 1 < s.memory.length →
      (∀ e ∈ Numpy.opcodes,
        (nth s.memory s.pc <<< 8 ||| nth s.memory (s.pc + 1)) &&& e.1 ≠ e.2.1) →
      Numpy.tick rnd s = .ok ({ s with pc := u16 (s.pc + 2) }, true) := by
  intro rnd s hlen hno
  have hfind : Numpy.opcodes.find?
      (fun e => (nth s.memory s.pc <<< 8 ||| nth s.memory (s.pc + 1)) &&& e.1 == e.2.1)
      = none := by
    rw [List.find?_eq_none]
    intro e he
    simpa using hno e he
  simp only [Numpy.tick]
  rw [if_pos hlen, hfind]

/-- **C7, witness** (the all-zero word 0x0000 matches no table entry). -/
theorem c7_witness :
    Numpy.tick 0 baseN = .ok ({ baseN with pc := u16 (baseN.pc + 2) }, true) :=
  c7_unknown_opcode 0 baseN (by decide) (by decide)

/-! Specification layer for the XOR draw of `op_DRW`: the list of target
cells of a sprite row, the per-cell draw step, and the proof that the
nested loops of the handler compute a fold of `drawStep` over those cells. -/

/-- One XOR-draw update: flip the cell and record a collision when the cell
was on before the flip (the handler's `if vram[index] == 1: V[0xF] = 1;
vram[index] ^= 1`). -/
def drawStep (st : List Nat × Nat) (idx : Nat) : List Nat × Nat :=
  (st.1.set idx (nth st.1 idx ^^^ 1), if nth st.1 idx = 1 then 1 else st.2)

/-- Target cells of one sprite row: for each set bit (MSB first), the cell
`(px+bit) % 64 + ((py+row) % 32) * 64`. -/
def cellsRow (sprite px py row : Nat) : List Nat :=
  (List.range 8).filterMap (fun bit =>
    if sprite &&& (0x80 >>> bit) ≠ 0 then
      some ((px + bit) % 64 + ((py + row) % 32) * 64)
    else none)

/-- Target cells of all `cnt` sprite rows starting at `row`. -/
def allCells (mem : List Nat) (I px py : Nat) : Nat → Nat → List Nat
  | _, 0 => []
  | row, cnt + 1 =>
    cellsRow (nth mem (I + row)) px py row ++ allCells mem I px py (row + 1) cnt

theorem foldl_guard_filterMap {α β γ : Type} (p : α → Prop) [DecidablePred p]
    (f : α → β) (g : γ → β → γ) :
    ∀ (l : List α) (st : γ),
      l.foldl (fun st a => if p a then g st (f a) else st) st
        = (l.filterMap (fun a => if p a then some (f a) else none)).foldl g st := by
  intro l
  induction l with
  | nil => intro st; rfl
  | cons a t ih =>
    intro st
    by_cases hp : p a
    · simp only [List.foldl_cons, List.filterMap_cons, if_pos hp]
      exact ih (g st (f a))
    · simp only [List.foldl_cons, List.filterMap_cons, if_neg hp]
      exact ih st

theorem npDrawRow_eq (sprite px py row : Nat) (st : List Nat × Nat) :
    Numpy.npDrawRow sprite px py row st = (cellsRow sprite px py row).foldl drawStep st :=
  foldl_guard_filterMap (fun bit => sprite &&& (0x80 >>> bit) ≠ 0)
    (fun bit => (px + bit) % 64 + ((py + row) % 32) * 64) drawStep (List.range 8) st

theorem npDrawRows_eq (mem : List Nat) (I px py : Nat) :
    ∀ (cnt row : Nat) (st : List Nat × Nat),
      (∀ r, r < cnt → I + (row + r) < mem.length) →
      Numpy.npDrawRows mem I px py row cnt st
        = .ok ((allCells mem I px py row cnt).foldl drawStep st) := by
  intro cnt
  induction cnt with
  | zero => intro row st _; rfl
  | succ c ih =>
    intro row st h
    have h0 : I + row < mem.length := by
      have := h 0 (by omega)
      omega
    rw [Numpy.npDrawRows, if_pos h0, npDrawRow_eq,
        ih (row + 1) _ (fun r hr => by have h2 := h (r + 1) (by omega); omega),
        allCells, List.foldl_append]

theorem npDrawRows_ok_bounds (mem : List Nat) (I px py : Nat) :
    ∀ (cnt row : Nat) (st out : List Nat × Nat),
      Numpy.npDrawRows mem I px py row cnt st = .ok out →
      ∀ r, r < cnt → I + (row + r) < mem.length := by
  intro cnt
  induction cnt with
  | zero => intro row st out _ r hr; omega
  | succ c ih =>
    intro row st out h r hr
    by_cases h0 : I + row < mem.length
    · rw [Numpy.npDrawRows, if_pos h0] at h
      cases r with
      | zero => omega
      | succ rr =>
        have := ih (row + 1) _ out h rr (by omega)
        omega
    · rw [Numpy.npDrawRows, if_neg h0] at h
      cases h

theorem foldl_drawStep_length (cells : List Nat) :
    ∀ (st : List Nat × Nat), (cells.foldl drawStep st).1.length = st.1.length := by
  induction cells with
  | nil => intro st; rfl
  | cons a t ih =>
    intro st
    rw [List.foldl_cons, ih]
    exact List.length_set st.1 a _

theorem foldl_drawStep_nth (cells : List Nat) :
    ∀ (st : List Nat × Nat), cells.Nodup → (∀ c ∈ cells, c < st.1.length) →
      ∀ i, nth (cells.foldl drawStep st).1 i =
        if i ∈ cells then nth st.1 i ^^^ 1 else nth st.1 i := by
  induction cells with
  | nil => intro st _ _ i; simp
  | cons a t ih =>
    intro st hnd hb i
    have ha : a < st.1.length := hb a (by simp)
    have hbt : ∀ c ∈ t, c < (drawStep st a).1.length := by
      intro c hc
      rw [show (drawStep st a).1.length = st.1.length from List.length_set st.1 a _]
      exact hb c (by simp [hc])
    rw [List.foldl_cons, ih (drawStep st a) (List.Nodup.of_cons hnd) hbt i]
    by_cases hia : i = a
    · subst hia
      have hnotin : i ∉ t := (List.nodup_cons.mp hnd).1
      rw [if_neg hnotin, if_pos (by simp)]
      exact nth_set_eq st.1 i _ ha
    · have h1 : nth (drawStep st a).1 i = nth st.1 i :=
        nth_set_ne st.1 a i _ (fun hh => hia hh.symm)
      by_cases hit : i ∈ t
      · rw [if_pos hit, if_pos (by simp [hit]), h1]
      · rw [if_neg hit, if_neg (by simp [hia, hit]), h1]

theorem foldl_drawStep_snd (cells : List Nat) :
    ∀ (st : List Nat × Nat), cells.Nodup →
      (cells.foldl drawStep st).2 =
        if ∃ c ∈ cells, nth st.1 c = 1 then 1 else st.2 := by
  induction cells with
  | nil => intro st _; simp
  | cons a t ih =>
    intro st hnd
    have hanotint : a ∉ t := (List.nodup_cons.mp hnd).1
    rw [List.foldl_cons, ih (drawStep st a) (List.Nodup.of_cons hnd)]
    have hkeep : ∀ c ∈ t, nth (drawStep st a).1 c = nth st.1 c := fun c hc =>
      nth_set_ne st.1 a c _ (fun hh => hanotint (hh ▸ hc))
    by_cases h2 : ∃ c ∈ t, nth st.1 c = 1
    · rw [if_pos (by obtain ⟨c, hc, hv⟩ := h2; exact ⟨c, hc, by rw [hkeep c hc]; exact hv⟩)]
      rw [if_pos (by obtain ⟨c, hc, hv⟩ := h2; exact ⟨c, by simp [hc], hv⟩)]
    · rw [if_neg (by rintro ⟨c, hc, hv⟩; rw [hkeep c hc] at hv; exact h2 ⟨c, hc, hv⟩)]
      show (if nth st.1 a = 1 then 1 else st.2) = _
      by_cases h3 : nth st.1 a = 1
      · rw [if_pos h3, if_pos ⟨a, by simp, h3⟩]
      · rw [if_neg h3, if_neg (by
          rintro ⟨c, hc, hv⟩
          rcases List.mem_cons.mp hc with rfl | hct
          · exact h3 hv
          · exact h2 ⟨c, hct, hv⟩)]

theorem cellsRow_mem {sprite px py row idx : Nat} (h : idx ∈ cellsRow sprite px py row) :
    ∃ b, b < 8 ∧ sprite &&& (0x80 >>> b) ≠ 0 ∧
      idx = (px + b) % 64 + ((py + row) % 32) * 64 := by
  unfold cellsRow at h
  obtain ⟨b, hb, hsome⟩ := List.mem_filterMap.mp h
  by_cases hc : sprite &&& (0x80 >>> b) ≠ 0
  · rw [if_pos hc] at hsome
    exact ⟨b, List.mem_range.mp hb, hc, (Option.some.inj hsome).symm⟩
  · rw [if_neg hc] at hsome
    cases hsome

theorem mod_add_inj {m a b1 b2 : Nat} (h1 : b1 < m) (h2 : b2 < m)
    (h : (a + b1) % m = (a + b2) % m) : b1 = b2 := by
  have hm : Nat.ModEq m (a + b1) (a + b2) := h
  have h3 : b1 % m = b2 % m := Nat.ModEq.add_left_cancel' a hm
  rwa [Nat.mod_eq_of_lt h1, Nat.mod_eq_of_lt h2] at h3

theorem bit_lt_8 {sprite b : Nat} (h : sprite &&& (0x80 >>> b) ≠ 0) : b < 8 := by
  by_contra hb
  apply h
  have h2 : (128 : Nat) < 2 ^ b :=
    lt_of_lt_of_le (show (128 : Nat) < 2 ^ 8 by norm_num)
      (Nat.pow_le_pow_right (by norm_num) (by omega))
  have h3 : (0x80 : Nat) >>> b = 0 := by
    rw [Nat.shiftRight_eq_div_pow]
    exact Nat.div_eq_of_lt h2
  rw [h3, Nat.and_zero]

theorem cellsRow_nodup (sprite px py row : Nat) : (cellsRow sprite px py row).Nodup := by
  unfold cellsRow
  apply List.Nodup.filterMap ?_ (List.nodup_range 8)
  intro b1 b2 idx h1 h2
  by_cases hc1 : sprite &&& (0x80 >>> b1) ≠ 0
  · by_cases hc2 : sprite &&& (0x80 >>> b2) ≠ 0
    · rw [if_pos hc1] at h1
      rw [if_pos hc2] at h2
      have he1 := Option.some.inj h1
      have he2 := Option.some.inj h2
      have hA1 : (px + b1) % 64 < 64 := Nat.mod_lt _ (by norm_num)
      have hA2 : (px + b2) % 64 < 64 := Nat.mod_lt _ (by norm_num)
      have hAeq : (px + b1) % 64 = (px + b2) % 64 := by omega
      exact mod_add_inj (lt_of_lt_of_le (bit_lt_8 hc1) (by norm_num))
        (lt_of_lt_of_le (bit_lt_8 hc2) (by norm_num)) hAeq
    · rw [if_neg hc2] at h2
      cases h2
  · rw [if_neg hc1] at h1
    cases h1

theorem cellsRow_row_inj {s1 s2 px py r1 r2 idx : Nat} (hr1 : r1 < 32) (hr2 : r2 < 32)
    (h1 : idx ∈ cellsRow s1 px py r1) (h2 : idx ∈ cellsRow s2 px py r2) : r1 = r2 := by
  obtain ⟨b1, _, _, he1⟩ := cellsRow_mem h1
  obtain ⟨b2, _, _, he2⟩ := cellsRow_mem h2
  have hA1 : (px + b1) % 64 < 64 := Nat.mod_lt _ (by norm_num)
  have hA2 : (px + b2) % 64 < 64 := Nat.mod_lt _ (by norm_num)
  have hBeq : (py + r1) % 32 = (py + r2) % 32 := by omega
  exact mod_add_inj hr1 hr2 hBeq

theorem allCells_mem (mem : List Nat) (I px py : Nat) :
    ∀ (cnt row idx : Nat), idx ∈ allCells mem I px py row cnt →
      ∃ r, row ≤ r ∧ r < row + cnt ∧ idx ∈ cellsRow (nth mem (I + r)) px py r := by
  intro cnt
  induction cnt with
  | zero => intro row idx h; simp [allCells] at h
  | succ c ih =>
    intro row idx h
    rw [allCells] at h
    rcases List.mem_append.mp h with h1 | h2
    · exact ⟨row, le_refl _, by omega, h1⟩
    · obtain ⟨r, hr1, hr2, hr3⟩ := ih (row + 1) idx h2
      exact ⟨r, by omega, by omega, hr3⟩

theorem allCells_nodup (mem : List Nat) (I px py : Nat) :
    ∀ (cnt row : Nat), row + cnt ≤ 32 → (allCells mem I px py row cnt).Nodup := by
  intro cnt
  induction cnt with
  | zero => intro row _; simp [allCells]
  | succ c ih =>
    intro row h
    rw [allCells]
    refine List.Nodup.append (cellsRow_nodup _ _ _ _) (ih (row + 1) (by omega)) ?_
    intro idx h1 h2
    obtain ⟨r, hr1, hr2, hr3⟩ := allCells_mem mem I px py c (row + 1) idx h2
    have := cellsRow_row_inj (show row < 32 by omega) (show r < 32 by omega) h1 hr3
    omega

theorem allCells_lt (mem : List Nat) (I px py : Nat) (cnt row : Nat) :
    ∀ idx ∈ allCells mem I px py row cnt, idx < 2048 := by
  intro idx h
  obtain ⟨r, _, _, hr⟩ := allCells_mem mem I px py cnt row idx h
  obtain ⟨b, _, _, he⟩ := cellsRow_mem hr
  have h1 : (px + b) % 64 < 64 := Nat.mod_lt _ (by norm_num)
  have h2 : (py + r) % 32 < 32 := Nat.mod_lt _ (by norm_num)
  omega

theorem list_eq_of_nth (l1 : List Nat) :
    ∀ l2 : List Nat, l1.length = l2.length → (∀ i, nth l1 i = nth l2 i) → l1 = l2 := by
  induction l1 with
  | nil =>
    intro l2 hlen _
    cases l2 with
    | nil => rfl
    | cons b u => simp at hlen
  | cons a t ih =>
    intro l2 hlen h
    cases l2 with
    | nil => simp at hlen
    | cons b u =>
      have h0 := h 0
      rw [nth_cons_zero, nth_cons_zero] at h0
      rw [h0, ih u (by simpa using hlen)
        (fun i => by have h2 := h (i + 1); rwa [nth_cons_succ, nth_cons_succ] at h2)]

theorem xor_one_involutive (a : Nat) : a ^^^ 1 ^^^ 1 = a := by
  rw [Nat.xor_assoc, show (1 : Nat) ^^^ 1 = 0 from rfl, Nat.xor_zero]

theorem foldl_drawStep_involutive (cells : List Nat) (v : List Nat) (hnd : cells.Nodup)
    (hb : ∀ c ∈ cells, c < v.length) (f1 f2 : Nat) :
    (cells.foldl drawStep ((cells.foldl drawStep (v, f1)).1, f2)).1 = v := by
  have hb1 : ∀ c ∈ cells, c < ((cells.foldl drawStep (v, f1)).1, f2).1.length := by
    intro c hc
    show c < (cells.foldl drawStep (v, f1)).1.length
    rw [foldl_drawStep_length]
    exact hb c hc
  apply list_eq_of_nth
  · rw [foldl_drawStep_length]
    show (cells.foldl drawStep (v, f1)).1.length = v.length
    rw [foldl_drawStep_length]
  · intro i
    rw [foldl_drawStep_nth cells _ hnd hb1 i]
    by_cases hi : i ∈ cells
    · rw [if_pos hi]
      show nth (cells.foldl drawStep (v, f1)).1 i ^^^ 1 = nth v i
      rw [foldl_drawStep_nth cells (v, f1) hnd hb i, if_pos hi, xor_one_involutive]
    · rw [if_neg hi]
      show nth (cells.foldl drawStep (v, f1)).1 i = nth v i
      rw [foldl_drawStep_nth cells (v, f1) hnd hb i, if_neg hi]

theorem op_DRW_ok_eq (rnd w : Nat) (s t : Numpy.NState)
    (h : Numpy.op_DRW rnd w s = .ok t) :
    t = { s with
          vram := ((allCells s.memory s.I (nth s.V ((w >>> 8) &&& 0xF))
                      (nth s.V ((w >>> 4) &&& 0xF)) 0 (w &&& 0xF)).foldl
                    drawStep (s.vram, 0)).1,
          V := s.V.set 0xF ((allCells s.memory s.I (nth s.V ((w >>> 8) &&& 0xF))
                      (nth s.V ((w >>> 4) &&& 0xF)) 0 (w &&& 0xF)).foldl
                    drawStep (s.vram, 0)).2,
          should_draw := true } := by
  simp only [Numpy.op_DRW] at h
  cases hd : Numpy.npDrawRows s.memory s.I (nth s.V ((w >>> 8) &&& 0xF))
      (nth s.V ((w >>> 4) &&& 0xF)) 0 (w &&& 0xF) (s.vram, 0) with
  | error e => rw [hd] at h; cases h
  | ok p =>
    rw [hd] at h
    obtain ⟨buf, vf⟩ := p
    injection h with he
    have hb := npDrawRows_ok_bounds s.memory s.I (nth s.V ((w >>> 8) &&& 0xF))
      (nth s.V ((w >>> 4) &&& 0xF)) (w &&& 0xF) 0 (s.vram, 0) (buf, vf) hd
    rw [npDrawRows_eq s.memory s.I (nth s.V ((w >>> 8) &&& 0xF))
      (nth s.V ((w >>> 4) &&& 0xF)) (w &&& 0xF) 0 (s.vram, 0) hb] at hd
    injection hd with hd2
    rw [← he, hd2]

/-- **C5.**  Double-XOR draw: executing the same `Dxyn` instruction twice in
succession — with Vx, Vy unchanged by the first draw (the sprite memory and
I are untouched by `op_DRW` itself) — restores the framebuffer to its state
before the first draw, and the second draw reports a collision in VF
whenever the first draw turned at least one pixel on. -/
theorem c5_draw_double_xor :
    ∀ (rnd1 rnd2 w : Nat) (s s1 s2 : Numpy.NState),
      s.vram.length = 2048 →
      s.V.length = 16 →
      Numpy.op_DRW rnd1 w s = .ok s1 →
      Numpy.op_DRW rnd2 w s1 = .ok s2 →
      nth s1.V ((w >>> 8) &&& 0xF) = nth s.V ((w >>> 8) &&& 0xF) →
      nth s1.V ((w >>> 4) &&& 0xF) = nth s.V ((w >>> 4) &&& 0xF) →
      s2.vram = s.vram ∧
      ((∃ i, i < 2048 ∧ nth s.vram i = 0 ∧ nth s1.vram i = 1) → nth s2.V 0xF = 1) := by
  intro rnd1 rnd2 w s s1 s2 hlen hVlen h1 h2 hx hy
  have he1 := op_DRW_ok_eq rnd1 w s s1 h1
  have he2 := op_DRW_ok_eq rnd2 w s1 s2 h2
  have hmem1 : s1.memory = s.memory := by rw [he1]
  have hI1 : s1.I = s.I := by rw [he1]
  have hvram1 : s1.vram =
      ((allCells s.memory s.I (nth s.V ((w >>> 8) &&& 0xF))
          (nth s.V ((w >>> 4) &&& 0xF)) 0 (w &&& 0xF)).foldl drawStep (s.vram, 0)).1 := by
    rw [he1]
  have hV1 : s1.V = s.V.set 0xF ((allCells s.memory s.I (nth s.V ((w >>> 8) &&& 0xF))
      (nth s.V ((w >>> 4) &&& 0xF)) 0 (w &&& 0xF)).foldl drawStep (s.vram, 0)).2 := by
    rw [he1]
  have hcells2 : allCells s1.memory s1.I (nth s1.V ((w >>> 8) &&& 0xF))
      (nth s1.V ((w >>> 4) &&& 0xF)) 0 (w &&& 0xF)
      = allCells s.memory s.I (nth s.V ((w >>> 8) &&& 0xF))
          (nth s.V ((w >>> 4) &&& 0xF)) 0 (w &&& 0xF) := by
    rw [hmem1, hI1, hx, hy]
  have hn15 : w &&& 0xF ≤ 15 := Nat.and_le_right
  have hnd : (allCells s.memory s.I (nth s.V ((w >>> 8) &&& 0xF))
      (nth s.V ((w >>> 4) &&& 0xF)) 0 (w &&& 0xF)).Nodup :=
    allCells_nodup s.memory s.I _ _ (w &&& 0xF) 0 (by omega)
  have hcb : ∀ c ∈ allCells s.memory s.I (nth s.V ((w >>> 8) &&& 0xF))
      (nth s.V ((w >>> 4) &&& 0xF)) 0 (w &&& 0xF), c < s.vram.length := by
    intro c hc
    rw [hlen]
    exact allCells_lt s.memory s.I _ _ (w &&& 0xF) 0 c hc
  have hvram2 : s2.vram =
      ((allCells s.memory s.I (nth s.V ((w >>> 8) &&& 0xF))
          (nth s.V ((w >>> 4) &&& 0xF)) 0 (w &&& 0xF)).foldl
        drawStep (s1.vram, 0)).1 := by
    rw [he2, hcells2]
  constructor
  · rw [hvram2, hvram1]
    exact foldl_drawStep_involutive _ s.vram hnd hcb 0 0
  · rintro ⟨i, hi2048, hs0, hs1i⟩
    have hiP : i ∈ allCells s.memory s.I (nth s.V ((w >>> 8) &&& 0xF))
        (nth s.V ((w >>> 4) &&& 0xF)) 0 (w &&& 0xF) := by
      by_contra hiP
      rw [hvram1, foldl_drawStep_nth _ (s.vram, 0) hnd hcb i, if_neg hiP] at hs1i
      rw [hs0] at hs1i
      cases hs1i
    have hV2 : s2.V = s1.V.set 0xF ((allCells s.memory s.I (nth s.V ((w >>> 8) &&& 0xF))
        (nth s.V ((w >>> 4) &&& 0xF)) 0 (w &&& 0xF)).foldl drawStep (s1.vram, 0)).2 := by
      rw [he2, hcells2]
    have hsnd : ((allCells s.memory s.I (nth s.V ((w >>> 8) &&& 0xF))
        (nth s.V ((w >>> 4) &&& 0xF)) 0 (w &&& 0xF)).foldl drawStep (s1.vram, 0)).2 = 1 := by
      rw [foldl_drawStep_snd _ (s1.vram, 0) hnd]
      rw [if_pos ⟨i, hiP, hs1i⟩]
    have hV1len : s1.V.length = 16 := by
      rw [hV1, List.length_set, hVlen]
    rw [hV2, hsnd]
    exact nth_set_eq s1.V 0xF 1 (by rw [hV1len]; norm_num)

def c5s0 : Numpy.NState := { baseN with memory := [0xF0], vram := List.replicate 2048 0 }

def c5v1 : List Nat := ((((List.replicate 2048 0).set 0 1).set 1 1).set 2 1).set 3 1

def c5s1 : Numpy.NState := { c5s0 with vram := c5v1, V := (List.replicate 16 0).set 15 0 }

def c5v2 : List Nat := (((c5v1.set 0 0).set 1 0).set 2 0).set 3 0

def c5s2 : Numpy.NState :=
  { c5s0 with vram := c5v2, V := ((List.replicate 16 0).set 15 0).set 15 1 }

/-- **C5, witness** (drawing the one-row sprite 0xF0 at (0,0) twice). -/
theorem c5_witness :
    c5s2.vram = c5s0.vram ∧
    ((∃ i, i < 2048 ∧ nth c5s0.vram i = 0 ∧ nth c5s1.vram i = 1) → nth c5s2.V 0xF = 1) :=
  c5_draw_double_xor 0 0 0xD001 c5s0 c5s1 c5s2
    (by rw [show c5s0.vram = List.replicate 2048 0 from rfl, List.length_replicate])
    (by rw [show c5s0.V = List.replicate 16 0 from rfl, List.length_replicate])
    rfl rfl rfl rfl

/-! ### C10 — byte invariant of the register file

Every register write performed by a dispatch-table handler stores a value
already reduced modulo 256; formalised as an invariant `Inv` preserved by
every entry of `opcodes`, by `tick`, by the timer step and by the keyboard
callbacks, hence holding in every reachable state. -/

theorem foldl_drawStep_snd_le (cells : List Nat) :
    ∀ st : List Nat × Nat, st.2 ≤ 1 → (cells.foldl drawStep st).2 ≤ 1 := by
  induction cells with
  | nil => intro st h; exact h
  | cons a t ih =>
    intro st h
    rw [List.foldl_cons]
    apply ih
    show (if nth st.1 a = 1 then 1 else st.2) ≤ 1
    split
    · exact Nat.le_refl 1
    · exact h

theorem or_lt_256 (a b : Nat) (ha : a < 256) (hb : b < 256) : a ||| b < 256 := by
  have h8 : (256 : Nat) = 2 ^ 8 := by norm_num
  rw [h8] at ha hb ⊢
  exact Nat.or_lt_two_pow ha hb

theorem xor_lt_256 (a b : Nat) (ha : a < 256) (hb : b < 256) : a ^^^ b < 256 := by
  have h8 : (256 : Nat) = 2 ^ 8 := by norm_num
  rw [h8] at ha hb ⊢
  exact Nat.xor_lt_two_pow ha hb

theorem int_sub_mod_toNat_lt (a b : Int) : ((a - b) % 256).toNat < 256 := by
  have h1 : 0 ≤ (a - b) % 256 := Int.emod_nonneg _ (by norm_num)
  have h2 : (a - b) % 256 < 256 := Int.emod_lt_of_pos _ (by norm_num)
  omega

theorem shiftRight_le_self (a k : Nat) : a >>> k ≤ a := by
  rw [Nat.shiftRight_eq_div_pow]
  exact Nat.div_le_self _ _

theorem forall_lt_set (l : List Nat) (i v : Nat)
    (hl : ∀ b ∈ l, b < 256) (hv : v < 256) : ∀ b ∈ l.set i v, b < 256 := by
  intro b hb
  rcases List.mem_or_eq_of_mem_set hb with hb2 | rfl
  · exact hl b hb2
  · exact hv

namespace Numpy

/-- The byte invariant of the dispatch-table engine: every register and
every memory byte fits in 8 bits, the delay timer fits in 8 bits, and the
key vector keeps its 16 slots. -/
def Inv (s : NState) : Prop :=
  (∀ v ∈ s.V, v < 256) ∧ (∀ b ∈ s.memory, b < 256) ∧ s.delay < 256 ∧ s.keys.length = 16

/-- States reachable from `Chip8.__init__` (with a byte-valued ROM) through
the engine's public surface: CPU ticks that do not fault, scheduled timer
ticks and the keyboard callbacks. -/
inductive Reachable : NState → Prop where
  | init (rom : List Nat) (h : ∀ b ∈ rom, b < 256) : Reachable (initState rom)
  | step (rnd : Nat) (s : NState) (p : NState × Bool) :
      Reachable s → tick rnd s = .ok p → Reachable p.1
  | timers (s : NState) : Reachable s → Reachable (timer_tick s)
  | key (k : Nat) (pressed : Bool) (s : NState) :
      Reachable s → Reachable (set_key k pressed s)

/-- An opcode handler preserves the byte invariant. -/
def Preserves (f : Nat → Nat → NState → Except NErr NState) : Prop :=
  ∀ rnd w s t, Inv s → f rnd w s = .ok t → Inv t

theorem pres_CLS : Preserves op_CLS := by
  intro rnd w s t hs h
  simp only [op_CLS] at h
  injection h with h2
  subst h2
  exact ⟨hs.1, hs.2.1, hs.2.2.1, hs.2.2.2⟩

theorem pres_RET : Preserves op_RET := by
  intro rnd w s t hs h
  simp only [op_RET] at h
  split at h <;> (injection h with h2; subst h2; exact ⟨hs.1, hs.2.1, hs.2.2.1, hs.2.2.2⟩)

theorem pres_JP : Preserves op_JP := by
  intro rnd w s t hs h
  simp only [op_JP] at h
  injection h with h2
  subst h2
  exact ⟨hs.1, hs.2.1, hs.2.2.1, hs.2.2.2⟩

theorem pres_CALL : Preserves op_CALL := by
  intro rnd w s t hs h
  simp only [op_CALL] at h
  split at h <;> (injection h with h2; subst h2; exact ⟨hs.1, hs.2.1, hs.2.2.1, hs.2.2.2⟩)

theorem pres_SE_Vx_kk : Preserves op_SE_Vx_kk := by
  intro rnd w s t hs h
  simp only [op_SE_Vx_kk] at h
  split at h <;> (injection h with h2; subst h2; exact ⟨hs.1, hs.2.1, hs.2.2.1, hs.2.2.2⟩)

theorem pres_SNE_Vx_kk : Preserves op_SNE_Vx_kk := by
  intro rnd w s t hs h
  simp only [op_SNE_Vx_kk] at h
  split at h <;> (injection h with h2; subst h2; exact ⟨hs.1, hs.2.1, hs.2.2.1, hs.2.2.2⟩)

theorem pres_SE_Vx_Vy : Preserves op_SE_Vx_Vy := by
  intro rnd w s t hs h
  simp only [op_SE_Vx_Vy] at h
  split at h <;> (injection h with h2; subst h2; exact ⟨hs.1, hs.2.1, hs.2.2.1, hs.2.2.2⟩)

theorem pres_SNE_Vx_Vy : Preserves op_SNE_Vx_Vy := by
  intro rnd w s t hs h
  simp only [op_SNE_Vx_Vy] at h
  split at h <;> (injection h with h2; subst h2; exact ⟨hs.1, hs.2.1, hs.2.2.1, hs.2.2.2⟩)

theorem pres_LD_Vx_kk : Preserves op_LD_Vx_kk := by
  intro rnd w s t hs h
  simp only [op_LD_Vx_kk] at h
  injection h with h2
  subst h2
  exact ⟨forall_lt_set _ _ _ hs.1 (kk_lt w), hs.2.1, hs.2.2.1, hs.2.2.2⟩

theorem pres_ADD_Vx_kk : Preserves op_ADD_Vx_kk := by
  intro rnd w s t hs h
  simp only [op_ADD_Vx_kk] at h
  injection h with h2
  subst h2
  exact ⟨forall_lt_set _ _ _ hs.1 (kk_lt _), hs.2.1, hs.2.2.1, hs.2.2.2⟩

theorem pres_LD_Vx_Vy : Preserves op_LD_Vx_Vy := by
  intro rnd w s t hs h
  simp only [op_LD_Vx_Vy] at h
  injection h with h2
  subst h2
  exact ⟨forall_lt_set _ _ _ hs.1 (nth_lt_of_forall _ _ _ (by norm_num) hs.1),
    hs.2.1, hs.2.2.1, hs.2.2.2⟩

theorem pres_OR : Preserves op_OR := by
  intro rnd w s t hs h
  simp only [op_OR] at h
  injection h with h2
  subst h2
  exact ⟨forall_lt_set _ _ _ hs.1
    (or_lt_256 _ _ (nth_lt_of_forall _ _ _ (by norm_num) hs.1)
      (nth_lt_of_forall _ _ _ (by norm_num) hs.1)), hs.2.1, hs.2.2.1, hs.2.2.2⟩

theorem pres_AND : Preserves op_AND := by
  intro rnd w s t hs h
  simp only [op_AND] at h
  injection h with h2
  subst h2
  exact ⟨forall_lt_set _ _ _ hs.1
    (lt_of_le_of_lt Nat.and_le_left (nth_lt_of_forall _ _ _ (by norm_num) hs.1)),
    hs.2.1, hs.2.2.1, hs.2.2.2⟩

theorem pres_XOR : Preserves op_XOR := by
  intro rnd w s t hs h
  simp only [op_XOR] at h
  injection h with h2
  subst h2
  exact ⟨forall_lt_set _ _ _ hs.1
    (xor_lt_256 _ _ (nth_lt_of_forall _ _ _ (by norm_num) hs.1)
      (nth_lt_of_forall _ _ _ (by norm_num) hs.1)), hs.2.1, hs.2.2.1, hs.2.2.2⟩

theorem pres_ADD : Preserves op_ADD := by
  intro rnd w s t hs h
  simp only [op_ADD] at h
  injection h with h2
  subst h2
  exact ⟨forall_lt_set _ _ _ (forall_lt_set _ _ _ hs.1 (by split <;> norm_num)) (kk_lt _),
    hs.2.1, hs.2.2.1, hs.2.2.2⟩

theorem pres_SUB : Preserves op_SUB := by
  intro rnd w s t hs h
  simp only [op_SUB] at h
  injection h with h2
  subst h2
  exact ⟨forall_lt_set _ _ _ (forall_lt_set _ _ _ hs.1 (by split <;> norm_num))
    (int_sub_mod_toNat_lt _ _), hs.2.1, hs.2.2.1, hs.2.2.2⟩

theorem pres_SHR : Preserves op_SHR := by
  intro rnd w s t hs h
  simp only [op_SHR] at h
  injection h with h2
  subst h2
  have hin : ∀ b ∈ s.V.set 0xF (nth s.V ((w >>> 8) &&& 0xF) &&& 1), b < 256 :=
    forall_lt_set _ _ _ hs.1 (lt_of_le_of_lt Nat.and_le_right (by norm_num))
  exact ⟨forall_lt_set _ _ _ hin
    (lt_of_le_of_lt (shiftRight_le_self _ _) (nth_lt_of_forall _ _ _ (by norm_num) hin)),
    hs.2.1, hs.2.2.1, hs.2.2.2⟩

theorem pres_SUBN : Preserves op_SUBN := by
  intro rnd w s t hs h
  simp only [op_SUBN] at h
  injection h with h2
  subst h2
  exact ⟨forall_lt_set _ _ _ (forall_lt_set _ _ _ hs.1 (by split <;> norm_num))
    (int_sub_mod_toNat_lt _ _), hs.2.1, hs.2.2.1, hs.2.2.2⟩

theorem pres_SHL : Preserves op_SHL := by
  intro rnd w s t hs h
  simp only [op_SHL] at h
  injection h with h2
  subst h2
  exact ⟨forall_lt_set _ _ _
    (forall_lt_set _ _ _ hs.1 (lt_of_le_of_lt Nat.and_le_right (by norm_num))) (kk_lt _),
    hs.2.1, hs.2.2.1, hs.2.2.2⟩

theorem pres_LD_I : Preserves op_LD_I := by
  intro rnd w s t hs h
  simp only [op_LD_I] at h
  injection h with h2
  subst h2
  exact ⟨hs.1, hs.2.1, hs.2.2.1, hs.2.2.2⟩

theorem pres_DRW : Preserves op_DRW := by
  intro rnd w s t hs h
  have he := op_DRW_ok_eq rnd w s t h
  subst he
  refine ⟨?_, hs.2.1, hs.2.2.1, hs.2.2.2⟩
  exact forall_lt_set _ _ _ hs.1
    (lt_of_le_of_lt (foldl_drawStep_snd_le _ (s.vram, 0) (by norm_num)) (by norm_num))

theorem pres_SKP : Preserves op_SKP := by
  intro rnd w s t hs h
  simp only [op_SKP] at h
  split at h
  · split at h <;> (injection h with h2; subst h2; exact ⟨hs.1, hs.2.1, hs.2.2.1, hs.2.2.2⟩)
  · cases h

theorem pres_SKNP : Preserves op_SKNP := by
  intro rnd w s t hs h
  simp only [op_SKNP] at h
  split at h
  · split at h <;> (injection h with h2; subst h2; exact ⟨hs.1, hs.2.1, hs.2.2.1, hs.2.2.2⟩)
  · cases h

theorem pres_LD_Vx_DT : Preserves op_LD_Vx_DT := by
  intro rnd w s t hs h
  simp only [op_LD_Vx_DT] at h
  injection h with h2
  subst h2
  exact ⟨forall_lt_set _ _ _ hs.1 hs.2.2.1, hs.2.1, hs.2.2.1, hs.2.2.2⟩

theorem pres_WAITKEY : Preserves op_WAITKEY := by
  intro rnd w s t hs h
  simp only [op_WAITKEY] at h
  cases hf : findPressed 0 s.keys with
  | some i =>
    rw [hf] at h
    injection h with h2
    subst h2
    have hi : i < 256 := by
      have h1 := findPressed_some_lt s.keys 0 i hf
      have h16 := hs.2.2.2
      omega
    exact ⟨forall_lt_set _ _ _ hs.1 hi, hs.2.1, hs.2.2.1, hs.2.2.2⟩
  | none =>
    rw [hf] at h
    injection h with h2
    subst h2
    exact ⟨hs.1, hs.2.1, hs.2.2.1, hs.2.2.2⟩

theorem pres_LD_DT_Vx : Preserves op_LD_DT_Vx := by
  intro rnd w s t hs h
  simp only [op_LD_DT_Vx] at h
  injection h with h2
  subst h2
  exact ⟨hs.1, hs.2.1, nth_lt_of_forall _ _ _ (by norm_num) hs.1, hs.2.2.2⟩

theorem pres_LD_ST_Vx : Preserves op_LD_ST_Vx := by
  intro rnd w s t hs h
  simp only [op_LD_ST_Vx] at h
  injection h with h2
  subst h2
  exact ⟨hs.1, hs.2.1, hs.2.2.1, hs.2.2.2⟩

theorem pres_ADD_I_Vx : Preserves op_ADD_I_Vx := by
  intro rnd w s t hs h
  simp only [op_ADD_I_Vx] at h
  injection h with h2
  subst h2
  exact ⟨hs.1, hs.2.1, hs.2.2.1, hs.2.2.2⟩

theorem pres_FONT : Preserves op_FONT := by
  intro rnd w s t hs h
  simp only [op_FONT] at h
  injection h with h2
  subst h2
  exact ⟨hs.1, hs.2.1, hs.2.2.1, hs.2.2.2⟩

theorem pres_BCD : Preserves op_BCD := by
  intro rnd w s t hs h
  simp only [op_BCD] at h
  split at h
  · injection h with h2
    subst h2
    have hv : nth s.V ((w >>> 8) &&& 0xF) < 256 :=
      nth_lt_of_forall _ _ _ (by norm_num) hs.1
    exact ⟨hs.1,
      forall_lt_set _ _ _ (forall_lt_set _ _ _ (forall_lt_set _ _ _ hs.2.1 (by omega))
        (by omega)) (by omega),
      hs.2.2.1, hs.2.2.2⟩
  · cases h

theorem pres_STORE : Preserves op_STORE := by
  intro rnd w s t hs h
  simp only [op_STORE] at h
  injection h with h2
  subst h2
  refine ⟨hs.1, ?_, hs.2.2.1, hs.2.2.2⟩
  intro b hb
  rcases List.mem_append.mp hb with hb1 | hb2
  · rcases List.mem_append.mp hb1 with hb3 | hb4
    · exact hs.2.1 b (List.mem_of_mem_take hb3)
    · exact hs.1 b (List.mem_of_mem_take hb4)
  · exact hs.2.1 b (List.mem_of_mem_drop hb2)

theorem pres_LOAD : Preserves op_LOAD := by
  intro rnd w s t hs h
  simp only [op_LOAD] at h
  injection h with h2
  subst h2
  refine ⟨?_, hs.2.1, hs.2.2.1, hs.2.2.2⟩
  intro b hb
  rcases List.mem_append.mp hb with hb1 | hb2
  · exact hs.2.1 b (List.mem_of_mem_drop (List.mem_of_mem_take hb1))
  · exact hs.1 b (List.mem_of_mem_drop hb2)

theorem pres_RND : Preserves op_RND := by
  intro rnd w s t hs h
  simp only [op_RND] at h
  injection h with h2
  subst h2
  exact ⟨forall_lt_set _ _ _ hs.1
    (lt_of_le_of_lt Nat.and_le_left (Nat.mod_lt rnd (by norm_num))),
    hs.2.1, hs.2.2.1, hs.2.2.2⟩

theorem opcodes_preserve (e : Nat × Nat × (Nat → Nat → NState → Except NErr NState))
    (he : e ∈ opcodes) : Preserves e.2.2 := by
  simp only [opcodes, List.mem_cons, List.not_mem_nil, or_false] at he
  rcases he with rfl | rfl | rfl | rfl | rfl | rfl | rfl | rfl | rfl | rfl | rfl | rfl | rfl |
    rfl | rfl | rfl | rfl | rfl | rfl | rfl | rfl | rfl | rfl | rfl | rfl | rfl | rfl | rfl |
    rfl | rfl | rfl | rfl | rfl
  · exact pres_CLS
  · exact pres_RET
  · exact pres_JP
  · exact pres_CALL
  · exact pres_SE_Vx_kk
  · exact pres_SNE_Vx_kk
  · exact pres_SE_Vx_Vy
  · exact pres_LD_Vx_kk
  · exact pres_ADD_Vx_kk
  · exact pres_LD_Vx_Vy
  · exact pres_OR
  · exact pres_AND
  · exact pres_XOR
  · exact pres_ADD
  · exact pres_SUB
  · exact pres_SHR
  · exact pres_SUBN
  · exact pres_SHL
  · exact pres_SNE_Vx_Vy
  · exact pres_LD_I
  · exact pres_DRW
  · exact pres_SKP
  · exact pres_SKNP
  · exact pres_LD_Vx_DT
  · exact pres_WAITKEY
  · exact pres_LD_DT_Vx
  · exact pres_LD_ST_Vx
  · exact pres_ADD_I_Vx
  · exact pres_FONT
  · exact pres_BCD
  · exact pres_STORE
  · exact pres_LOAD
  · exact pres_RND

theorem tick_inv (rnd : Nat) (s : NState) (p : NState × Bool)
    (hs : Inv s) (h : tick rnd s = .ok p) : Inv p.1 := by
  simp only [tick] at h
  split at h
  · cases hfind : opcodes.find?
        (fun e => (nth s.memory s.pc <<< 8 ||| nth s.memory (s.pc + 1)) &&& e.1 == e.2.1) with
    | none =>
      rw [hfind] at h
      injection h with h2
      subst h2
      exact ⟨hs.1, hs.2.1, hs.2.2.1, hs.2.2.2⟩
    | some e =>
      rw [hfind] at h
      simp only [] at h
      have he := List.mem_of_find?_eq_some hfind
      cases happ : e.2.2 rnd (nth s.memory s.pc <<< 8 ||| nth s.memory (s.pc + 1))
          { s with pc := u16 (s.pc + 2) } with
      | error err =>
        rw [happ] at h
        simp only [Except.map] at h
        cases h
      | ok s2 =>
        rw [happ] at h
        simp only [Except.map] at h
        injection h with h2
        subst h2
        exact opcodes_preserve e he rnd _ { s with pc := u16 (s.pc + 2) } s2
          ⟨hs.1, hs.2.1, hs.2.2.1, hs.2.2.2⟩ happ
  · cases h

theorem timer_tick_V (s : NState) : (timer_tick s).V = s.V := by
  simp only [timer_tick]
  split <;> rfl

theorem timer_tick_memory (s : NState) : (timer_tick s).memory = s.memory := by
  simp only [timer_tick]
  split <;> rfl

theorem timer_tick_keys (s : NState) : (timer_tick s).keys = s.keys := by
  simp only [timer_tick]
  split <;> rfl

theorem timer_tick_delay (s : NState) :
    (timer_tick s).delay = if 0 < s.delay then s.delay - 1 else s.delay := by
  simp only [timer_tick]
  split <;> rfl

theorem timer_tick_inv (s : NState) (hs : Inv s) : Inv (timer_tick s) := by
  refine ⟨?_, ?_, ?_, ?_⟩
  · rw [timer_tick_V]
    exact hs.1
  · rw [timer_tick_memory]
    exact hs.2.1
  · rw [timer_tick_delay]
    have hd := hs.2.2.1
    split <;> omega
  · rw [timer_tick_keys]
    exact hs.2.2.2

theorem set_key_inv (k : Nat) (pressed : Bool) (s : NState) (hs : Inv s) :
    Inv (set_key k pressed s) := by
  refine ⟨hs.1, hs.2.1, hs.2.2.1, ?_⟩
  show (s.keys.set k (if pressed then 1 else 0)).length = 16
  rw [List.length_set]
  exact hs.2.2.2

theorem splice_bound (i : Nat) (xs tgt : List Nat)
    (hx : ∀ b ∈ xs, b < 256) (ht : ∀ b ∈ tgt, b < 256) :
    ∀ b ∈ splice i xs tgt, b < 256 := by
  intro b hb
  rcases List.mem_append.mp hb with hb1 | hb2
  · rcases List.mem_append.mp hb1 with hb3 | hb4
    · exact ht b (List.mem_of_mem_take hb3)
    · exact hx b hb4
  · exact ht b (List.mem_of_mem_drop hb2)

theorem initState_inv (rom : List Nat) (h : ∀ b ∈ rom, b < 256) : Inv (initState rom) := by
  have hrep : ∀ b ∈ List.replicate 4096 (0 : Nat), b < 256 := by
    intro b hb
    rw [List.eq_of_mem_replicate hb]
    norm_num
  have hfs : ∀ b ∈ FONTSET, b < 256 := by decide
  refine ⟨?_, ?_, ?_, ?_⟩
  · intro v hv
    rw [List.eq_of_mem_replicate hv]
    norm_num
  · exact splice_bound 0x200 rom _ h (splice_bound 0 FONTSET _ hfs hrep)
  · show (0 : Nat) < 256
    norm_num
  · show (List.replicate 16 (0 : Nat)).length = 16
    rw [List.length_replicate]

theorem Inv_reachable (s : NState) (h : Reachable s) : Inv s := by
  induction h with
  | init rom hb => exact initState_inv rom hb
  | step rnd s2 p hr ht ih => exact tick_inv rnd s2 p ih ht
  | timers s2 hr ih => exact timer_tick_inv s2 ih
  | key k pressed s2 hr ih => exact set_key_inv k pressed s2 ih

end Numpy

/-- **C10.**  Implicit invariant: in every machine state reachable from the
initial state (built from a byte-valued ROM) through CPU ticks, scheduled
timer ticks and keyboard callbacks, every general-purpose register V0–VF
holds a value in the range 0–255 — every handler that writes a register
stores a value already reduced modulo 256. -/
theorem c10_registers_bounded (s : Numpy.NState) (h : Numpy.Reachable s) :
    ∀ i, i < 16 → nth s.V i < 256 := by
  intro i _
  exact nth_lt_of_forall s.V i 256 (by norm_num) (Numpy.Inv_reachable s h).1

/-- **C10, witness** (the freshly initialised machine with a two-byte ROM). -/
theorem c10_witness :
    Numpy.Reachable (Numpy.initState [0x60, 0xFF]) ∧
    nth (Numpy.initState [0x60, 0xFF]).V 0 < 256 := by
  have hr : Numpy.Reachable (Numpy.initState [0x60, 0xFF]) :=
    Numpy.Reachable.init [0x60, 0xFF] (by decide)
  exact ⟨hr, c10_registers_bounded _ hr 0 (by norm_num)⟩
